import Mathlib

/-!
Verification development for the crawler backend (`file_api.py`).

The Python source is shallowly embedded: pure helper functions become Lean
functions on `String`/`List Char`; the MongoDB-backed state becomes an explicit
`Store` record threaded through the operations; the external collaborators
(HTTP transport, the `validators.url` check and `urllib`'s `urljoin`) become
oracle parameters.  HTML documents (what BeautifulSoup parses) are modelled as
a forest of element/text nodes carrying the attributes the source consults
(tag name, `id`, `class` list, `href`).
-/

/-! ## Basic character and list-of-char utilities -/

/-- The ASCII whitespace characters recognised by Python's `str.split`,
`str.strip` and the regex class used in the source (inputs of interest are
ASCII, so the unicode spaces are not modelled). -/
def isPySpace (c : Char) : Bool :=
  c == ' ' || c == '\t' || c == '\n' || c == '\r' || c == '\x0b' || c == '\x0c'

/-- `listStartsWith pat s` is true when `pat` is an initial run of `s`. -/
def listStartsWith : List Char → List Char → Bool
  | [], _ => true
  | _ :: _, [] => false
  | p :: ps, c :: cs => p == c && listStartsWith ps cs

/-- `listHasSub pat s`: `pat` occurs contiguously somewhere inside `s`
(Python's `pat in s`). -/
def listHasSub (pat : List Char) : List Char → Bool
  | [] => listStartsWith pat []
  | c :: cs => listStartsWith pat (c :: cs) || listHasSub pat cs

/-- `listEndsWith pat s`: `pat` is a final run of `s`. -/
def listEndsWith (pat s : List Char) : Bool :=
  listStartsWith pat.reverse s.reverse

/-- Python's `sub in s` on strings. -/
def strContains (s pat : String) : Bool :=
  listHasSub pat.data s.data

/-- Python's `s.endswith(pat)` on strings. -/
def strEndsWith (s pat : String) : Bool :=
  listEndsWith pat.data s.data

/-- Python's `s.startswith(pat)` on strings. -/
def strStartsWith (s pat : String) : Bool :=
  listStartsWith pat.data s.data

/-- ASCII lower-casing, Python's `str.lower` for the ASCII inputs modelled. -/
def lowerStr (s : String) : String :=
  ⟨s.data.map Char.toLower⟩

/-- Python's `str.strip()` on the character list: drop leading and trailing
whitespace. -/
def pyStripList (l : List Char) : List Char :=
  ((l.dropWhile isPySpace).reverse.dropWhile isPySpace).reverse

/-- Python's `str.strip()`. -/
def pyStrip (s : String) : String :=
  ⟨pyStripList s.data⟩

/-- First-occurrence-preserving de-duplication; the source's
`list(set(valid_urls))` (whose order is unspecified) is modelled with this
deterministic representative. -/
def dedupFirstGo (seen : List String) : List String → List String
  | [] => []
  | x :: xs => if seen.contains x then dedupFirstGo seen xs else x :: dedupFirstGo (x :: seen) xs

/-- De-duplicate keeping first occurrences. -/
def dedupFirst (l : List String) : List String :=
  dedupFirstGo [] l

/-! ## URL classifiers (`is_valid_content_url`, `contains_text_in_url`)

`is_valid_url` wraps the external `validators` library and is treated as an
oracle parameter `validUrl` wherever the crawl needs it. -/

/-- The extension alternatives of the first regex in `is_valid_content_url`. -/
def blockedExtensions : List String :=
  ["jpg", "jpeg", "png", "gif", "svg", "webp", "mp4", "mp3", "pdf", "zip",
   "exe", "js", "css", "xml"]

/-- The path-segment alternatives of the second regex in
`is_valid_content_url`. -/
def blockedPathSegments : List String :=
  ["login", "logout", "signin", "signout", "register", "cart", "checkout", "api"]

/-- Model of `re.search(r'\.(jpg|...|xml)$', url, re.IGNORECASE)`: the
case-folded URL ends with a dot followed by one of the alternatives, where the
`$` anchor also matches just before one trailing newline. -/
def extensionRegexHit (url : String) : Bool :=
  let s := lowerStr url
  blockedExtensions.any fun e =>
    strEndsWith s ("." ++ e) || strEndsWith s ("." ++ e ++ "\n")

/-- Model of `re.search(r'/(login|...|api)/?$', url, re.IGNORECASE)` with the
same `$` semantics. -/
def pathSegmentRegexHit (url : String) : Bool :=
  let s := lowerStr url
  blockedPathSegments.any fun sg =>
    strEndsWith s ("/" ++ sg) || strEndsWith s ("/" ++ sg ++ "/") ||
    strEndsWith s ("/" ++ sg ++ "\n") || strEndsWith s ("/" ++ sg ++ "/\n")

/-- `is_valid_content_url` from the source: reject URLs hitting either regex,
accept everything else. -/
def is_valid_content_url (url : String) : Bool :=
  if extensionRegexHit url then false
  else if pathSegmentRegexHit url then false
  else true

/-- The content-indicator vocabulary of `contains_text_in_url`. -/
def textIndicators : List String :=
  ["article", "blog", "post", "news", "story", "content",
   "text", "page", "read", "view", "doc", "document",
   "info", "about", "faq", "help", "guide", "tutorial",
   "wiki", "knowledge", "learn", "support"]

/-- `contains_text_in_url` from the source: some indicator occurs in the
lower-cased URL. -/
def contains_text_in_url (url : String) : Bool :=
  textIndicators.any fun ind => strContains (lowerStr url) ind

/-! ### The spec's reading of `isLikelyTextContent` (path-based)

The spec describes the classifier as acting on the URL's *path*; the source
applies its regexes to the whole URL string.  The following definitions follow
the spec's words so the two readings can be compared. -/

/-- Everything after the first `://` separator, if present. -/
def afterSchemeSep : List Char → Option (List Char)
  | [] => none
  | c :: cs =>
    if listStartsWith [':', '/', '/'] (c :: cs) then some (cs.drop 2)
    else afterSchemeSep cs

/-- Split a character list on a separator character. -/
def splitOnChar (sep : Char) : List Char → List (List Char)
  | [] => [[]]
  | c :: cs =>
    let r := splitOnChar sep cs
    if c == sep then [] :: r
    else
      match r with
      | [] => [[c]]
      | x :: xs => (c :: x) :: xs

/-- Modelled from the spec: the path of a URL — the part after the authority,
from the first `/`, up to the query or fragment. -/
def urlPath (u : String) : String :=
  let rest := match afterSchemeSep u.data with
    | some r => r
    | none => u.data
  let fromSlash := rest.dropWhile fun c => !(c == '/')
  ⟨fromSlash.takeWhile fun c => !(c == '?') && !(c == '#')⟩

/-- Modelled from the spec: `isLikelyTextContent` as the spec words it —
`false` when the URL's *path* ends in a blocked extension or has a blocked
auth/commerce/API segment as its terminal path component, `true` otherwise.
This is the reading claim C5 asserts of `is_valid_content_url`. -/
def specIsLikelyTextContent (url : String) : Bool :=
  let p := lowerStr (urlPath url)
  if blockedExtensions.any (fun e => strEndsWith p ("." ++ e)) then false
  else if (match ((splitOnChar '/' p.data).filter (· ≠ [])).getLast? with
           | some comp => blockedPathSegments.any fun sg => sg.data == comp
           | none => false) then false
  else true

/-! ### Suffix characterisation lemmas -/

theorem listStartsWith_iff (pat s : List Char) :
    listStartsWith pat s = true ↔ ∃ r, s = pat ++ r := by
  induction pat generalizing s with
  | nil => simp [listStartsWith]
  | cons p ps ih =>
    cases s with
    | nil => simp [listStartsWith]
    | cons c cs =>
      simp only [listStartsWith, Bool.and_eq_true, beq_iff_eq, ih,
        List.cons_append, List.cons.injEq]
      constructor
      · rintro ⟨rfl, r, rfl⟩; exact ⟨r, rfl, rfl⟩
      · rintro ⟨r, rfl, rfl⟩; exact ⟨rfl, r, rfl⟩

theorem listEndsWith_iff (pat s : List Char) :
    listEndsWith pat s = true ↔ ∃ t, s = t ++ pat := by
  unfold listEndsWith
  rw [listStartsWith_iff]
  constructor
  · rintro ⟨r, hr⟩
    refine ⟨r.reverse, ?_⟩
    have := congrArg List.reverse hr
    simpa using this
  · rintro ⟨t, rfl⟩
    exact ⟨t.reverse, by simp⟩

theorem string_ext {a b : String} (h : a.data = b.data) : a = b := by
  cases a; cases b; exact congrArg String.mk h

theorem strEndsWith_iff (s pat : String) :
    strEndsWith s pat = true ↔ ∃ p : String, s = p ++ pat := by
  unfold strEndsWith
  rw [listEndsWith_iff]
  constructor
  · rintro ⟨t, ht⟩
    refine ⟨⟨t⟩, string_ext ?_⟩
    simpa [String.data_append] using ht
  · rintro ⟨p, rfl⟩
    exact ⟨p.data, by simp [String.data_append]⟩

/-! ### Claim C5 -/

/-- All the URL suffixes that make `is_valid_content_url` reject (the two
regexes' possible match texts, including the `$`-before-trailing-newline
variants). -/
def badUrlSuffixes : List String :=
  (blockedExtensions.map fun e => "." ++ e) ++
  (blockedExtensions.map fun e => "." ++ e ++ "\n") ++
  (blockedPathSegments.map fun sg => "/" ++ sg) ++
  (blockedPathSegments.map fun sg => "/" ++ sg ++ "/") ++
  (blockedPathSegments.map fun sg => "/" ++ sg ++ "\n") ++
  (blockedPathSegments.map fun sg => "/" ++ sg ++ "/\n")

/-- C5 counterexample: the claim says the classifier inspects the URL's
*path*; on `https://example.com/file.pdf?x=1` the path ends in `.pdf`, so the
claimed behaviour is `false`, but `is_valid_content_url` (which applies its
regexes to the whole URL string, whose suffix is `?x=1`) returns `true`. -/
theorem is_valid_content_url_path_counterexample :
    specIsLikelyTextContent "https://example.com/file.pdf?x=1" = false ∧
      is_valid_content_url "https://example.com/file.pdf?x=1" = true := by
  constructor <;> decide

/-- Membership helpers for `badUrlSuffixes`. -/
theorem mem_badUrlSuffixes_ext {e : String} (he : e ∈ blockedExtensions) :
    "." ++ e ∈ badUrlSuffixes := by
  simp only [badUrlSuffixes, List.mem_append, List.mem_map]
  exact Or.inl (Or.inl (Or.inl (Or.inl (Or.inl ⟨e, he, rfl⟩))))

theorem mem_badUrlSuffixes_extNl {e : String} (he : e ∈ blockedExtensions) :
    "." ++ e ++ "\n" ∈ badUrlSuffixes := by
  simp only [badUrlSuffixes, List.mem_append, List.mem_map]
  exact Or.inl (Or.inl (Or.inl (Or.inl (Or.inr ⟨e, he, rfl⟩))))

theorem mem_badUrlSuffixes_seg {sg : String} (hs : sg ∈ blockedPathSegments) :
    "/" ++ sg ∈ badUrlSuffixes := by
  simp only [badUrlSuffixes, List.mem_append, List.mem_map]
  exact Or.inl (Or.inl (Or.inl (Or.inr ⟨sg, hs, rfl⟩)))

theorem mem_badUrlSuffixes_segSl {sg : String} (hs : sg ∈ blockedPathSegments) :
    "/" ++ sg ++ "/" ∈ badUrlSuffixes := by
  simp only [badUrlSuffixes, List.mem_append, List.mem_map]
  exact Or.inl (Or.inl (Or.inr ⟨sg, hs, rfl⟩))

theorem mem_badUrlSuffixes_segNl {sg : String} (hs : sg ∈ blockedPathSegments) :
    "/" ++ sg ++ "\n" ∈ badUrlSuffixes := by
  simp only [badUrlSuffixes, List.mem_append, List.mem_map]
  exact Or.inl (Or.inr ⟨sg, hs, rfl⟩)

theorem mem_badUrlSuffixes_segSlNl {sg : String} (hs : sg ∈ blockedPathSegments) :
    "/" ++ sg ++ "/\n" ∈ badUrlSuffixes := by
  simp only [badUrlSuffixes, List.mem_append, List.mem_map]
  exact Or.inr ⟨sg, hs, rfl⟩

/-- C5 (amended): `is_valid_content_url` returns `false` exactly when the
case-folded *full URL string* (not its path) ends with a dot followed by a
blocked extension, or with `/` followed by a blocked segment (optionally
followed by `/`), in both cases optionally followed by one trailing newline;
it returns `true` otherwise, and it is total (never raises). -/
theorem is_valid_content_url_suffix_characterisation (url : String) :
    is_valid_content_url url = false ↔
      ∃ v ∈ badUrlSuffixes, ∃ p : String, lowerStr url = p ++ v := by
  have hchar : is_valid_content_url url = false ↔
      (extensionRegexHit url = true ∨ pathSegmentRegexHit url = true) := by
    unfold is_valid_content_url
    cases hext : extensionRegexHit url <;> cases hseg : pathSegmentRegexHit url <;> simp
  rw [hchar]
  constructor
  · rintro (hext | hseg)
    · rcases List.any_eq_true.mp hext with ⟨e, he, hsfx⟩
      simp only [Bool.or_eq_true] at hsfx
      rcases hsfx with h1 | h1
      · exact ⟨"." ++ e, mem_badUrlSuffixes_ext he, (strEndsWith_iff _ _).mp h1⟩
      · exact ⟨"." ++ e ++ "\n", mem_badUrlSuffixes_extNl he, (strEndsWith_iff _ _).mp h1⟩
    · rcases List.any_eq_true.mp hseg with ⟨sg, hs, hsfx⟩
      simp only [Bool.or_eq_true] at hsfx
      rcases hsfx with ((h1 | h1) | h1) | h1
      · exact ⟨"/" ++ sg, mem_badUrlSuffixes_seg hs, (strEndsWith_iff _ _).mp h1⟩
      · exact ⟨"/" ++ sg ++ "/", mem_badUrlSuffixes_segSl hs, (strEndsWith_iff _ _).mp h1⟩
      · exact ⟨"/" ++ sg ++ "\n", mem_badUrlSuffixes_segNl hs, (strEndsWith_iff _ _).mp h1⟩
      · exact ⟨"/" ++ sg ++ "/\n", mem_badUrlSuffixes_segSlNl hs, (strEndsWith_iff _ _).mp h1⟩
  · rintro ⟨v, hv, p, hp⟩
    have hsfx : strEndsWith (lowerStr url) v = true :=
      (strEndsWith_iff _ _).mpr ⟨p, hp⟩
    simp only [badUrlSuffixes, List.mem_append, List.mem_map] at hv
    rcases hv with (((((⟨e, he, rfl⟩ | ⟨e, he, rfl⟩) | ⟨sg, hs, rfl⟩) | ⟨sg, hs, rfl⟩) |
        ⟨sg, hs, rfl⟩) | ⟨sg, hs, rfl⟩)
    · exact Or.inl (List.any_eq_true.mpr ⟨e, he, by simp [hsfx]⟩)
    · exact Or.inl (List.any_eq_true.mpr ⟨e, he, by simp [hsfx]⟩)
    · exact Or.inr (List.any_eq_true.mpr ⟨sg, hs, by simp [hsfx]⟩)
    · exact Or.inr (List.any_eq_true.mpr ⟨sg, hs, by simp [hsfx]⟩)
    · exact Or.inr (List.any_eq_true.mpr ⟨sg, hs, by simp [hsfx]⟩)
    · exact Or.inr (List.any_eq_true.mpr ⟨sg, hs, by simp [hsfx]⟩)

/-! ## HTML documents

A parsed page (BeautifulSoup's view, restricted to what the source consults)
is a forest of nodes; an element carries its tag name, optional `id`
attribute, `class` list and optional `href` attribute. -/

structure Attrs where
  idAttr : Option String
  classes : List String
  href : Option String

inductive Html where
  | elem (tag : String) (attrs : Attrs) (children : List Html)
  | text (s : String)

/-- Children of a node (`[]` for a text node). -/
def childrenOf : Html → List Html
  | .elem _ _ c => c
  | .text _ => []

/-- Tag of a node (`""` for a text node). -/
def tagOf : Html → String
  | .elem t _ _ => t
  | .text _ => ""

mutual
/-- Preorder collection of the elements (node first, then descendants)
satisfying a predicate on tag and attributes; `find_all` in the source. -/
def collectElems (p : String → Attrs → Bool) : Html → List Html
  | .text _ => []
  | .elem t a c => (if p t a then [Html.elem t a c] else []) ++ collectElemsL p c
/-- `collectElems` over a forest. -/
def collectElemsL (p : String → Attrs → Bool) : List Html → List Html
  | [] => []
  | h :: hs => collectElems p h ++ collectElemsL p hs
end

mutual
/-- All text-node strings in document order; BeautifulSoup's `strings`. -/
def rawTexts : Html → List String
  | .text st => [st]
  | .elem _ _ c => rawTextsL c
/-- `rawTexts` over a forest. -/
def rawTextsL : List Html → List String
  | [] => []
  | h :: hs => rawTexts h ++ rawTextsL hs
end

mutual
/-- Remove (recursively) every element satisfying the predicate; the source's
`tag.extract()` loops. -/
def removeElems (p : String → Attrs → Bool) : Html → List Html
  | .text st => [Html.text st]
  | .elem t a c => if p t a then [] else [Html.elem t a (removeElemsL p c)]
/-- `removeElems` over a forest. -/
def removeElemsL (p : String → Attrs → Bool) : List Html → List Html
  | [] => []
  | h :: hs => removeElems p h ++ removeElemsL p hs
end

/-- Predicate for `soup.find('div', {'id': 'mw-content-text'})`. -/
def isContentDiv (t : String) (a : Attrs) : Bool :=
  t == "div" && a.idAttr == some "mw-content-text"

/-- First element (preorder) satisfying the predicate; `find` in the source. -/
def findElem (p : String → Attrs → Bool) (doc : List Html) : Option Html :=
  (collectElemsL p doc).head?

/-- The wiki main-content region, `soup.find('div', {'id': 'mw-content-text'})`. -/
def findContentDiv (doc : List Html) : Option Html :=
  findElem isContentDiv doc

/-- Hrefs of `find_all('a', href=True)` over a forest, in document order. -/
def anchorHrefs (doc : List Html) : List String :=
  (collectElemsL (fun t a => t == "a" && a.href.isSome) doc).filterMap fun h =>
    match h with
    | .elem _ a _ => a.href
    | .text _ => none

/-- Href of the first `<base href=...>` element, if any. -/
def findBaseHref (doc : List Html) : Option String :=
  match findElem (fun t a => t == "base" && a.href.isSome) doc with
  | some (.elem _ a _) => a.href
  | _ => none

/-! ## Link Extractor (the in-crawl URL extraction of `recursive_crawl`) -/

/-- The wiki namespace/query blocklist of `recursive_crawl`. -/
def wikiBlockMarkers : List String :=
  ["/wiki/Special:", "/wiki/Talk:", "/wiki/Category:",
   "/wiki/Help:", "/wiki/Portal:", "/wiki/Wikipedia:",
   "/wiki/Template:", "/wiki/File:", "/wiki/MediaWiki:",
   "action=edit", "oldid=", "diff=", "printable=yes"]

/-- Per-anchor step of `recursive_crawl`'s extraction loop: strip the href, skip
empty/`javascript:`/`mailto:`/`tel:`/fragment hrefs, resolve against the base
(`urljoin`, the external `resolve` oracle), then apply the wiki-mode filter or
the default `is_valid_url`/`is_valid_content_url` filter. -/
def processAnchorHref (isWiki : Bool) (validUrl : String → Bool)
    (resolve : String → String → String) (baseUrl : String)
    (href0 : String) : Option String :=
  let href := pyStrip href0
  if href == "" || strStartsWith href "javascript:" || strStartsWith href "mailto:" ||
      strStartsWith href "tel:" || strStartsWith href "#" then none
  else
    let full := resolve baseUrl href
    if isWiki then
      if strContains full "wikipedia.org/wiki/" then
        if wikiBlockMarkers.any (fun m => strContains full m) then none
        else some full
      else none
    else
      if !validUrl full || !is_valid_content_url full then none
      else some full

/-- The full extraction step of `recursive_crawl`: anchors (narrowed to the
wiki main-content region when present in wiki mode), base-URL override by a
`<base>` tag, per-anchor processing, then de-duplication
(`list(set(valid_urls))`). -/
def extractPageLinks (isWiki : Bool) (validUrl : String → Bool)
    (resolve : String → String → String) (pageUrl : String)
    (doc : List Html) : List String :=
  let anchors :=
    if isWiki then
      match findContentDiv doc with
      | some d => anchorHrefs (childrenOf d)
      | none => anchorHrefs doc
    else anchorHrefs doc
  let baseUrl := match findBaseHref doc with
    | some b => b
    | none => pageUrl
  dedupFirst (anchors.filterMap (processAnchorHref isWiki validUrl resolve baseUrl))

theorem mem_dedupFirstGo {x : String} : ∀ (seen : List String) (l : List String),
    x ∈ dedupFirstGo seen l → x ∈ l := by
  intro seen l
  induction l generalizing seen with
  | nil => simp [dedupFirstGo]
  | cons y ys ih =>
    simp only [dedupFirstGo]
    split
    · exact fun h => List.mem_cons_of_mem _ (ih _ h)
    · intro h
      rcases List.mem_cons.mp h with h | h
      · exact h ▸ List.mem_cons_self _ _
      · exact List.mem_cons_of_mem _ (ih _ h)

theorem mem_dedupFirst {x : String} {l : List String} (h : x ∈ dedupFirst l) : x ∈ l :=
  mem_dedupFirstGo [] l h

/-- In wiki mode a processed anchor that survives contains the wiki path
marker and none of the blocklist markers. -/
theorem processAnchorHref_wiki_spec (validUrl : String → Bool)
    (resolve : String → String → String) (baseUrl href0 u : String)
    (h : processAnchorHref true validUrl resolve baseUrl href0 = some u) :
    strContains u "wikipedia.org/wiki/" = true ∧
      ∀ m ∈ wikiBlockMarkers, strContains u m = false := by
  unfold processAnchorHref at h
  by_cases hskip : (pyStrip href0 == "" || strStartsWith (pyStrip href0) "javascript:" ||
      strStartsWith (pyStrip href0) "mailto:" || strStartsWith (pyStrip href0) "tel:" ||
      strStartsWith (pyStrip href0) "#") = true
  · simp [hskip] at h
  · by_cases hw : strContains (resolve baseUrl (pyStrip href0)) "wikipedia.org/wiki/" = true
    · by_cases hb : (wikiBlockMarkers.any fun m =>
          strContains (resolve baseUrl (pyStrip href0)) m) = true
      · simp [hskip, hw, hb] at h
      · simp only [hskip, hw, hb, Bool.false_eq_true, if_false, if_true,
          Option.some.injEq] at h
        subst h
        refine ⟨hw, fun m hm => ?_⟩
        have hb2 : (wikiBlockMarkers.any fun m =>
            strContains (resolve baseUrl (pyStrip href0)) m) = false := by simpa using hb
        have := List.any_eq_false.mp hb2 m hm
        simpa using this
    · simp [hskip, hw] at h

/-- C6: in wiki mode, every URL produced by the link extraction step contains
`wikipedia.org/wiki/`, and none contains any blocklisted namespace marker or
query marker — whatever the anchors, base tag, URL validator and resolution
oracle are. -/
theorem wiki_extraction_filter (validUrl : String → Bool)
    (resolve : String → String → String) (pageUrl : String) (doc : List Html)
    (u : String) (hu : u ∈ extractPageLinks true validUrl resolve pageUrl doc) :
    strContains u "wikipedia.org/wiki/" = true ∧
      ∀ m ∈ wikiBlockMarkers, strContains u m = false := by
  unfold extractPageLinks at hu
  have hu2 := mem_dedupFirst hu
  rcases List.mem_filterMap.mp hu2 with ⟨href0, _, hpa⟩
  exact processAnchorHref_wiki_spec validUrl resolve _ href0 u hpa

/-- C6 witness: a concrete wiki-mode extraction keeping an article link and
dropping a `Special:` link. -/
def wikiWitnessDoc : List Html :=
  [Html.elem "div" ⟨some "mw-content-text", [], none⟩
    [Html.elem "a" ⟨none, [], some "/wiki/Lean"⟩ [],
     Html.elem "a" ⟨none, [], some "/wiki/Special:Random"⟩ []]]

theorem wiki_extraction_filter_witness :
    strContains "https://en.wikipedia.org/wiki/Lean" "wikipedia.org/wiki/" = true ∧
      ∀ m ∈ wikiBlockMarkers,
        strContains "https://en.wikipedia.org/wiki/Lean" m = false :=
  wiki_extraction_filter (fun _ => true) (fun _ h => "https://en.wikipedia.org" ++ h)
    "https://en.wikipedia.org/wiki/Main_Page" wikiWitnessDoc
    "https://en.wikipedia.org/wiki/Lean" (by decide)

/-! ## Content Extractor (`scrape_single_link`'s text pipeline) -/

/-- Join fragments with a single space: BeautifulSoup
`get_text(separator=' ', ...)`. -/
def joinWithSpace : List (List Char) → List Char
  | [] => []
  | [p] => p
  | p :: ps => p ++ ' ' :: joinWithSpace ps

/-- BeautifulSoup `get_text()` (no arguments): concatenation of all text
fragments. -/
def getTextAll (h : Html) : String :=
  ⟨((rawTexts h).map String.data).flatten⟩

/-- BeautifulSoup `get_text(separator=' ', strip=True)` over a forest: strip
each fragment, drop the empty ones, join with single spaces. -/
def getTextSepSpace (doc : List Html) : String :=
  ⟨joinWithSpace (((rawTextsL doc).map fun s => pyStripList s.data).filter (· ≠ []))⟩

/-- Title extraction of `scrape_single_link`: text of the first `<title>`
element, stripped; `"Unknown Title"` when absent. -/
def titleTextOf (doc : List Html) : String :=
  match findElem (fun t _ => t == "title") doc with
  | some te => pyStrip (getTextAll te)
  | none => "Unknown Title"

/-- Decompose `l` as `a ++ '\n' :: b` with `b` newline-free (the backtrack of
the greedy `\s*` before the closing `\n`). -/
def splitLastNL : List Char → Option (List Char × List Char)
  | [] => none
  | c :: cs =>
    match splitLastNL cs with
    | some (a, b) => some (c :: a, b)
    | none => if c == '\n' then some ([], cs) else none

/-- Fuel-bounded model of Python's `re.sub(r'\n\s*\n', '\n\n', text)`: at each
`\n`, greedily take the following whitespace run; if it contains another
newline, the stretch up to its last newline is replaced by a blank line and
scanning resumes after it. -/
def collapseGo : Nat → List Char → List Char
  | 0, l => l
  | _ + 1, [] => []
  | fuel + 1, c :: cs =>
    if c == '\n' then
      match splitLastNL (cs.takeWhile isPySpace) with
      | some (_, b) => '\n' :: '\n' :: collapseGo fuel (b ++ cs.dropWhile isPySpace)
      | none => c :: collapseGo fuel cs
    else c :: collapseGo fuel cs

/-- `re.sub(r'\n\s*\n', '\n\n', ·)` on character lists. -/
def collapseNL (l : List Char) : List Char :=
  collapseGo l.length l

/-- `re.sub(r'\n\s*\n', '\n\n', ·)` on strings (the post-processing step of
`scrape_single_link`). -/
def collapseBlankLines (s : String) : String :=
  ⟨collapseNL s.data⟩

/-- The decorative elements removed inside the wiki content region:
`content_div.select('.thumb, .navbox, .infobox, table')`. -/
def isUnwanted (t : String) (a : Attrs) : Bool :=
  a.classes.contains "thumb" || a.classes.contains "navbox" ||
    a.classes.contains "infobox" || t == "table"

/-- The tags walked by the wiki branch:
`content_div.find_all(['p', 'h2', 'h3', 'h4', 'h5', 'h6'])`. -/
def paraTags : List String := ["p", "h2", "h3", "h4", "h5", "h6"]

/-- The wiki-mode structured extraction when the content region is present:
remove decorative elements, walk paragraph/heading elements, render headings
as `## <text>` lines, join with blank lines, prepend `# <title>`. -/
def wikiSectionText (contentDiv : Html) (titleText : String) : String :=
  let cleaned := removeElemsL isUnwanted (childrenOf contentDiv)
  let parts := (collectElemsL (fun t _ => paraTags.contains t) cleaned).filterMap fun pe =>
    let tx := pyStrip (getTextAll pe)
    if tx == "" then none
    else if strStartsWith (tagOf pe) "h" then some ("\n## " ++ tx ++ "\n")
    else some tx
  "# " ++ titleText ++ "\n\n" ++ String.intercalate "\n\n" parts

/-- Whole-document visible text: remove `script`/`style` elements, then
`get_text(separator=' ', strip=True)`. -/
def docBodyText (doc : List Html) : String :=
  getTextSepSpace (removeElemsL (fun t _ => t == "script" || t == "style") doc)

/-- The text produced by `scrape_single_link` before the blank-line
post-processing: wiki mode uses the structured extraction when the content
region is present and falls back to the whole-document text when absent
(without a title heading); default mode prepends `# <title>` to the
whole-document text. -/
def scrapeRawText (isWiki : Bool) (doc : List Html) : String :=
  let titleText := titleTextOf doc
  if isWiki then
    match findContentDiv doc with
    | some d => wikiSectionText d titleText
    | none => docBodyText doc
  else "# " ++ titleText ++ "\n\n" ++ docBodyText doc

/-- The final text persisted by `scrape_single_link`. -/
def scrapeText (isWiki : Bool) (doc : List Html) : String :=
  collapseBlankLines (scrapeRawText isWiki doc)

/-! ### Properties of the blank-line collapse -/

theorem splitLastNL_length : ∀ {l a b : List Char},
    splitLastNL l = some (a, b) → l.length = a.length + 1 + b.length := by
  intro l
  induction l with
  | nil => intro a b h; simp [splitLastNL] at h
  | cons c cs ih =>
    intro a b h
    simp only [splitLastNL] at h
    cases hrec : splitLastNL cs with
    | some ab =>
      obtain ⟨a0, b0⟩ := ab
      rw [hrec] at h
      simp only [Option.some.injEq, Prod.mk.injEq] at h
      obtain ⟨ha, hb⟩ := h
      subst ha
      subst hb
      have := ih hrec
      simp only [List.length_cons]
      omega
    | none =>
      rw [hrec] at h
      by_cases hc : (c == '\n') = true
      · rw [if_pos hc] at h
        simp only [Option.some.injEq, Prod.mk.injEq] at h
        obtain ⟨ha, hb⟩ := h
        subst ha
        subst hb
        simp only [List.length_cons, List.length_nil]
        omega
      · rw [if_neg hc] at h
        exact absurd h (by simp)

theorem collapseGo_cons_newline {fuel : Nat} {cs a0 b0 : List Char}
    (hs : splitLastNL (cs.takeWhile isPySpace) = some (a0, b0)) :
    collapseGo (fuel + 1) ('\n' :: cs) =
      '\n' :: '\n' :: collapseGo fuel (b0 ++ cs.dropWhile isPySpace) := by
  simp [collapseGo, hs]

theorem collapseGo_cons_newline_no_run {fuel : Nat} {cs : List Char}
    (hs : splitLastNL (cs.takeWhile isPySpace) = none) :
    collapseGo (fuel + 1) ('\n' :: cs) = '\n' :: collapseGo fuel cs := by
  simp [collapseGo, hs]

theorem collapseGo_cons_other {fuel : Nat} {c : Char} {cs : List Char}
    (hc : (c == '\n') = false) :
    collapseGo (fuel + 1) (c :: cs) = c :: collapseGo fuel cs := by
  simp [collapseGo, hc]

theorem collapseGo_congr : ∀ (f1 : Nat) (f2 : Nat) (l : List Char),
    l.length ≤ f1 → l.length ≤ f2 → collapseGo f1 l = collapseGo f2 l := by
  intro f1
  induction f1 with
  | zero =>
    intro f2 l h1 _
    have : l = [] := List.eq_nil_of_length_eq_zero (Nat.le_zero.mp h1)
    subst this
    cases f2 <;> rfl
  | succ f ih =>
    intro f2 l h1 h2
    cases l with
    | nil => cases f2 <;> rfl
    | cons c cs =>
      cases f2 with
      | zero => simp at h2
      | succ f2' =>
        have hcs1 : cs.length ≤ f := by
          simp only [List.length_cons] at h1; omega
        have hcs2 : cs.length ≤ f2' := by
          simp only [List.length_cons] at h2; omega
        by_cases hc : (c == '\n') = true
        · have hceq : c = '\n' := by simpa using hc
          subst hceq
          cases hs : splitLastNL (cs.takeWhile isPySpace) with
          | some ab =>
            obtain ⟨a0, b0⟩ := ab
            have hlen := splitLastNL_length hs
            have htw : (cs.takeWhile isPySpace).length + (cs.dropWhile isPySpace).length
                = cs.length := by
              rw [← List.length_append, List.takeWhile_append_dropWhile]
            have hble : (b0 ++ cs.dropWhile isPySpace).length ≤ cs.length - 1 := by
              simp only [List.length_append]
              omega
            rw [collapseGo_cons_newline hs, collapseGo_cons_newline hs,
              ih f2' (b0 ++ cs.dropWhile isPySpace) (by omega) (by omega)]
          | none =>
            rw [collapseGo_cons_newline_no_run hs, collapseGo_cons_newline_no_run hs,
              ih f2' cs hcs1 hcs2]
        · have hc2 : (c == '\n') = false := by simpa using hc
          rw [collapseGo_cons_other hc2, collapseGo_cons_other hc2, ih f2' cs hcs1 hcs2]

theorem collapseGo_eq_collapseNL {fuel : Nat} {l : List Char} (h : l.length ≤ fuel) :
    collapseGo fuel l = collapseNL l :=
  collapseGo_congr fuel l.length l h (Nat.le_refl _)

/-- Characters that are not newlines pass through the collapse untouched. -/
theorem collapseNL_append_of_no_newline : ∀ (pre rest : List Char),
    (∀ ch ∈ pre, ch ≠ '\n') → collapseNL (pre ++ rest) = pre ++ collapseNL rest := by
  intro pre
  induction pre with
  | nil => intro rest _; simp
  | cons c pre1 ih =>
    intro rest hno
    have hc : (c == '\n') = false := by
      simpa using hno c (List.mem_cons_self _ _)
    have e1 : collapseNL (c :: (pre1 ++ rest)) = c :: collapseNL (pre1 ++ rest) := by
      unfold collapseNL
      rw [List.length_cons, collapseGo_cons_other hc]
    calc collapseNL ((c :: pre1) ++ rest) = collapseNL (c :: (pre1 ++ rest)) := by
          rw [List.cons_append]
      _ = c :: collapseNL (pre1 ++ rest) := e1
      _ = c :: (pre1 ++ collapseNL rest) := by
          rw [ih rest fun ch hch => hno ch (List.mem_cons_of_mem _ hch)]
      _ = (c :: pre1) ++ collapseNL rest := by rw [List.cons_append]

/-- A blank line followed by a non-whitespace character (or the end) is kept
verbatim, collapsing the rest independently. -/
theorem collapseNL_two_newlines (b : List Char)
    (hb : ∀ ch, b.head? = some ch → isPySpace ch = false) :
    collapseNL ('\n' :: '\n' :: b) = '\n' :: '\n' :: collapseNL b := by
  have hnl : isPySpace '\n' = true := rfl
  have htw : ('\n' :: b).takeWhile isPySpace = ['\n'] := by
    cases b with
    | nil => rfl
    | cons x xs =>
      have hx : isPySpace x = false := hb x rfl
      rw [List.takeWhile_cons, List.takeWhile_cons]
      simp [hnl, hx]
  have hdw : ('\n' :: b).dropWhile isPySpace = b := by
    cases b with
    | nil => rfl
    | cons x xs =>
      have hx : isPySpace x = false := hb x rfl
      rw [List.dropWhile_cons, List.dropWhile_cons]
      simp [hnl, hx]
  have hsplit : splitLastNL (('\n' :: b).takeWhile isPySpace) = some ([], []) := by
    rw [htw]; rfl
  have key : collapseGo (b.length + 1 + 1) ('\n' :: '\n' :: b) =
      '\n' :: '\n' :: collapseGo (b.length + 1) ([] ++ ('\n' :: b).dropWhile isPySpace) :=
    collapseGo_cons_newline hsplit
  unfold collapseNL
  simp only [List.length_cons]
  rw [key, hdw, List.nil_append, collapseGo_eq_collapseNL (Nat.le_succ _)]
  rfl

/-! ### The fallback branch of the wiki extraction (claim C7) -/

theorem head_dropWhile (p : Char → Bool) :
    ∀ (l : List Char) {c : Char} {r : List Char}, l.dropWhile p = c :: r → p c = false := by
  intro l
  induction l with
  | nil => intro c r h; simp [List.dropWhile] at h
  | cons x xs ih =>
    intro c r h
    rw [List.dropWhile_cons] at h
    by_cases hx : p x = true
    · rw [if_pos hx] at h
      exact ih h
    · rw [if_neg hx] at h
      injection h with h1 _
      subst h1
      simpa using hx

theorem pyStripList_head {l : List Char} {c : Char} {r : List Char}
    (h : pyStripList l = c :: r) : isPySpace c = false := by
  unfold pyStripList at h
  have hsfx : ((l.dropWhile isPySpace).reverse.dropWhile isPySpace) <:+
      (l.dropWhile isPySpace).reverse := List.dropWhile_suffix _
  have hpfx : ((l.dropWhile isPySpace).reverse.dropWhile isPySpace).reverse <+:
      l.dropWhile isPySpace := by
    refine List.reverse_suffix.mp ?_
    simpa using hsfx
  rw [h] at hpfx
  obtain ⟨t, ht⟩ := hpfx
  have hm2 : l.dropWhile isPySpace = c :: (r ++ t) := by
    rw [← ht]; simp
  exact head_dropWhile isPySpace l hm2

theorem joinWithSpace_head :
    ∀ (parts : List (List Char)) {c : Char} {r : List Char},
      (∀ p ∈ parts, p ≠ []) →
      (∀ p ∈ parts, ∀ c0 r0, p = c0 :: r0 → isPySpace c0 = false) →
      joinWithSpace parts = c :: r → isPySpace c = false := by
  intro parts
  induction parts with
  | nil => intro c r _ _ h; simp [joinWithSpace] at h
  | cons p ps ih =>
    intro c r hne hheads h
    cases ps with
    | nil =>
      simp only [joinWithSpace] at h
      exact hheads p (List.mem_cons_self _ _) c r h
    | cons q qs =>
      simp only [joinWithSpace] at h
      cases p with
      | nil => exact absurd rfl (hne [] (List.mem_cons_self _ _))
      | cons c0 p0 =>
        simp only [List.cons_append] at h
        injection h with h1 _
        subst h1
        exact hheads (c0 :: p0) (List.mem_cons_self _ _) c0 p0 rfl

theorem docBodyText_head (doc : List Html) {c : Char} {r : List Char}
    (h : (docBodyText doc).data = c :: r) : isPySpace c = false := by
  unfold docBodyText getTextSepSpace at h
  refine joinWithSpace_head _ ?_ ?_ h
  · intro p hp
    have h2 := (List.mem_filter.mp hp).2
    simpa using h2
  · intro p hp c0 r0 hp0
    rcases List.mem_filter.mp hp with ⟨hpm, _⟩
    rcases List.mem_map.mp hpm with ⟨s, _, rfl⟩
    exact pyStripList_head hp0

/-- A concrete document with a title and body text but no wiki main-content
region. -/
def c7Doc : List Html :=
  [Html.elem "html" ⟨none, [], none⟩
    [Html.elem "title" ⟨none, [], none⟩ [Html.text "T"],
     Html.elem "p" ⟨none, [], none⟩ [Html.text "hello"]]]

/-- C7 counterexample: with the wiki flag set and the main-content region
absent, the extracted text is NOT the default-mode output — the fallback omits
the `# <title>` heading that default mode prepends. -/
theorem wiki_fallback_counterexample :
    findContentDiv c7Doc = none ∧
      scrapeText true c7Doc = "T hello" ∧
      scrapeText false c7Doc = "# T\n\nT hello" ∧
      scrapeText true c7Doc ≠ scrapeText false c7Doc := by
  refine ⟨rfl, rfl, rfl, by decide⟩

/-- C7 (amended): when the wiki flag is set and the main-content region is
absent, the Content Extractor falls back to whole-document visible text with
script/style removed, but *without* the `# <title>` heading; equivalently, the
default-mode output is exactly `# <title>`, a blank line, then the wiki-mode
fallback output (stated for titles without embedded newlines). -/
theorem wiki_fallback_vs_default (doc : List Html)
    (hdiv : findContentDiv doc = none)
    (htitle : ∀ ch ∈ (titleTextOf doc).data, ch ≠ '\n') :
    scrapeText false doc = "# " ++ titleTextOf doc ++ "\n\n" ++ scrapeText true doc := by
  apply string_ext
  have hraw_t : scrapeRawText true doc = docBodyText doc := by
    simp [scrapeRawText, hdiv]
  have hraw_f : scrapeRawText false doc =
      "# " ++ titleTextOf doc ++ "\n\n" ++ docBodyText doc := by
    simp [scrapeRawText]
  have hdata1 : ("# " : String).data = ['#', ' '] := rfl
  have hdata2 : ("\n\n" : String).data = ['\n', '\n'] := rfl
  have hpre : ∀ ch ∈ '#' :: ' ' :: (titleTextOf doc).data, ch ≠ '\n' := by
    intro ch hch
    rcases List.mem_cons.mp hch with rfl | hch
    · decide
    · rcases List.mem_cons.mp hch with rfl | hch
      · decide
      · exact htitle ch hch
  have hbhead : ∀ ch, (docBodyText doc).data.head? = some ch → isPySpace ch = false := by
    intro ch hch
    cases hb : (docBodyText doc).data with
    | nil => rw [hb] at hch; simp at hch
    | cons c0 r0 =>
      rw [hb] at hch
      simp only [List.head?_cons, Option.some.injEq] at hch
      subst hch
      exact docBodyText_head doc hb
  calc (scrapeText false doc).data
      = collapseNL ((scrapeRawText false doc).data) := rfl
    _ = collapseNL (('#' :: ' ' :: (titleTextOf doc).data) ++
          ('\n' :: '\n' :: (docBodyText doc).data)) := by
        rw [hraw_f]
        simp only [String.data_append, hdata1, hdata2]
        simp [List.append_assoc]
    _ = ('#' :: ' ' :: (titleTextOf doc).data) ++
          collapseNL ('\n' :: '\n' :: (docBodyText doc).data) :=
        collapseNL_append_of_no_newline _ _ hpre
    _ = ('#' :: ' ' :: (titleTextOf doc).data) ++
          ('\n' :: '\n' :: collapseNL ((docBodyText doc).data)) := by
        rw [collapseNL_two_newlines _ hbhead]
    _ = ("# " ++ titleTextOf doc ++ "\n\n" ++ scrapeText true doc).data := by
        have : (scrapeText true doc).data = collapseNL ((docBodyText doc).data) := by
          unfold scrapeText collapseBlankLines
          rw [hraw_t]
        rw [String.data_append, String.data_append, String.data_append, hdata1, hdata2, this]
        simp [List.append_assoc]

/-- C7 amended-claim witness at the concrete document `c7Doc`. -/
theorem wiki_fallback_vs_default_witness :
    scrapeText false c7Doc = "# " ++ titleTextOf c7Doc ++ "\n\n" ++ scrapeText true c7Doc :=
  wiki_fallback_vs_default c7Doc rfl (by decide)

/-! ## The persistent store

Four logical collections of the MongoDB database, as explicit lists in
insertion order (`find_one` takes the first match; `insert_one` appends;
`update_one` rewrites the first match).  Mongo's `_id` is modelled by a
per-store counter. -/

structure LinkDoc where
  id : Nat
  link : String
  is_crawled : Bool
  depth : Nat
  source_url : Option String
  error : Option String
deriving DecidableEq

structure TaskDoc where
  id : Nat
  link : String
  is_processed : Bool
  source_url : String
  has_text_in_url : Bool
  depth : Nat
  error : Option String
deriving DecidableEq

structure SnapDoc where
  source_url : String
  uniqueLinks : List String
  depth : Nat
deriving DecidableEq

structure ContentDoc where
  id : Nat
  scrapped_content : String
  content_link : String
  link_id : Nat
  source_url : String
  depth : Nat
  title : String
deriving DecidableEq

structure Store where
  links : List LinkDoc
  tasks : List TaskDoc
  snaps : List SnapDoc
  content : List ContentDoc
  nextId : Nat
deriving DecidableEq

def emptyStore : Store := ⟨[], [], [], [], 0⟩

/-- Mongo `update_one`: rewrite the first element matching the filter. -/
def updateFirst (p : α → Bool) (f : α → α) : List α → List α
  | [] => []
  | x :: xs => if p x then f x :: xs else x :: updateFirst p f xs

def insertLinkDoc (st : Store) (link : String) (src : Option String) (depth : Nat) : Store :=
  { st with
    links := st.links ++ [⟨st.nextId, link, false, depth, src, none⟩]
    nextId := st.nextId + 1 }

def insertTaskDoc (st : Store) (link : String) (src : String) (hasText : Bool)
    (depth : Nat) : Store :=
  { st with
    tasks := st.tasks ++ [⟨st.nextId, link, false, src, hasText, depth, none⟩]
    nextId := st.nextId + 1 }

def insertSnapDoc (st : Store) (src : String) (links : List String) (depth : Nat) : Store :=
  { st with snaps := st.snaps ++ [⟨src, links, depth⟩] }

def insertContentDoc (st : Store) (textv link : String) (linkId : Nat) (src : String)
    (depth : Nat) (title : String) : Store :=
  { st with
    content := st.content ++ [⟨st.nextId, textv, link, linkId, src, depth, title⟩]
    nextId := st.nextId + 1 }

/-! ## Frontier Manager (`recursive_crawl`) -/

/-- `'wikipedia.org' in url or 'wiki' in url.lower()`. -/
def isWikiUrl (url : String) : Bool :=
  strContains url "wikipedia.org" || strContains (lowerStr url) "wiki"

/-- `find_one({'is_crawled': {'$ne': True}})`. -/
def findUncrawled (st : Store) : Option LinkDoc :=
  st.links.find? fun e => !e.is_crawled

/-- `find_one({'is_crawled': {'$ne': True}, 'depth': i})`. -/
def findAtDepth (st : Store) (i : Nat) : Option LinkDoc :=
  st.links.find? fun e => !e.is_crawled && e.depth == i

/-- The candidate selection of one loop iteration: on the first iteration with
a (truthy) seed URL, query by that link; otherwise query by the iteration
index as depth; in either case fall back to any uncrawled entry. -/
def selectCandidate (urlOpt : Option String) (i : Nat) (st : Store) : Option LinkDoc :=
  let primary :=
    match urlOpt with
    | some u =>
      if !(u == "") && i == 0 then st.links.find? fun e => !e.is_crawled && e.link == u
      else findAtDepth st i
    | none => findAtDepth st i
  match primary with
  | some d => some d
  | none => findUncrawled st

/-- One discovered URL of the inner loop: insert a frontier entry at depth
`d + 1` unless one exists for the exact link string; insert a content task at
depth `d + 1` when content-worthy (wiki mode: always) unless one exists. -/
def storeDiscoveredLink (isWiki : Bool) (srcUrl : String) (d : Nat)
    (st : Store) (link : String) : Store :=
  let should_process := isWiki || contains_text_in_url link
  let st1 :=
    if (st.links.find? fun e => e.link == link).isNone then
      insertLinkDoc st link (some srcUrl) (d + 1)
    else st
  if should_process && (st1.tasks.find? fun t => t.link == link).isNone then
    insertTaskDoc st1 link srcUrl (if isWiki then true else contains_text_in_url link) (d + 1)
  else st1

/-- The inner loop over the de-duplicated discovered links. -/
def storeDiscovered (isWiki : Bool) (srcUrl : String) (d : Nat)
    (links : List String) (st : Store) : Store :=
  links.foldl (storeDiscoveredLink isWiki srcUrl d) st

/-- `update_one({'_id': ..}, {'$set': {'is_crawled': True, ...}})`. -/
def markLinkCrawled (st : Store) (docId : Nat) : Store :=
  let newLinks := updateFirst (fun e => e.id == docId)
    (fun e => { e with is_crawled := true }) st.links
  { st with links := newLinks }

/-- The same update with an error recorded (transport failure). -/
def markLinkCrawledErr (st : Store) (docId : Nat) (msg : String) : Store :=
  let newLinks := updateFirst (fun e => e.id == docId)
    (fun e => { e with is_crawled := true, error := some msg }) st.links
  { st with links := newLinks }

/-- Ensure the crawled URL itself has a content task (source `seed_url` at
depth 0, otherwise the entry's recorded source), at the entry's own depth. -/
def ensureSelfTask (isWiki : Bool) (c : LinkDoc) (st : Store) : Store :=
  if (st.tasks.find? fun t => t.link == c.link).isNone then
    insertTaskDoc st c.link
      (if c.depth == 0 then "seed_url" else c.source_url.getD "unknown")
      (if isWiki then true else contains_text_in_url c.link) c.depth
  else st

inductive CrawlResp where
  | invalidUrl (u : String)
  | urlRequired
  | noMoreLinks (depth : Nat)
  | success (links_to_crawl links_crawled links_to_scrape links_scraped : Nat)
  | serverError
deriving DecidableEq

/-- The statistics of the crawl's 200 response. -/
def crawlStats (st : Store) : CrawlResp :=
  .success ((st.links.filter fun e => !e.is_crawled).length)
    ((st.links.filter fun e => e.is_crawled).length)
    ((st.tasks.filter fun t => !t.is_processed).length)
    ((st.tasks.filter fun t => t.is_processed).length)

/-- One iteration of the crawl loop.  `some resp` aborts the whole loop (the
`return` for an exhausted frontier); a transport failure marks the entry
crawled with the error and continues. -/
def crawlIter (validUrl : String → Bool) (resolve : String → String → String)
    (F : String → Except String (List Html)) (urlOpt : Option String) (i : Nat)
    (st : Store) : Option CrawlResp × Store :=
  match selectCandidate urlOpt i st with
  | none => (some (CrawlResp.noMoreLinks i), st)
  | some c =>
    let isWiki := isWikiUrl c.link
    match F c.link with
    | .error e => (none, markLinkCrawledErr st c.id ("Request error: " ++ e))
    | .ok doc =>
      let links := extractPageLinks isWiki validUrl resolve c.link doc
      let st1 := insertSnapDoc st c.link links c.depth
      let st2 := storeDiscovered isWiki c.link c.depth links st1
      let st3 := markLinkCrawled st2 c.id
      (none, ensureSelfTask isWiki c st3)

/-- `for current_depth in range(process_depth)` with the early `return`. -/
def crawlLoop (validUrl : String → Bool) (resolve : String → String → String)
    (F : String → Except String (List Html)) (urlOpt : Option String) :
    List Nat → Store → Option CrawlResp × Store
  | [], st => (none, st)
  | i :: rest, st =>
    let r := crawlIter validUrl resolve F urlOpt i st
    match r.1 with
    | some resp => (some resp, r.2)
    | none => crawlLoop validUrl resolve F urlOpt rest r.2

/-- A JSON value in the request body (as far as `int(...)` conversion is
concerned). -/
inductive JVal where
  | str (s : String)
  | num (n : Int)
  | other
deriving DecidableEq

/-- Digits-only parse used to model Python's `int(str)`. -/
def digitsToNat (l : List Char) : Option Nat :=
  if l ≠ [] ∧ l.all (fun c => c.isDigit) then
    some (l.foldl (fun a c => a * 10 + (c.toNat - 48)) 0)
  else none

/-- Python's `int(s)` on a string: optional surrounding whitespace, optional
sign, decimal digits; `none` models the raised `ValueError`. -/
def pyIntOfString (s : String) : Option Int :=
  match pyStripList s.data with
  | '+' :: ds => (digitsToNat ds).map fun n => (n : Int)
  | '-' :: ds => (digitsToNat ds).map fun n => -(n : Int)
  | ds => (digitsToNat ds).map fun n => (n : Int)

/-- Python's `int(x)` on the request's depth value; `none` models the raised
exception for unconvertible values. -/
def jsonToInt : JVal → Option Int
  | .num n => some n
  | .str s => pyIntOfString s
  | .other => none

/-- The parsed JSON request body (only the keys the endpoint reads). -/
structure ReqBody where
  url : Option String
  depth : Option JVal
deriving DecidableEq

/-- The depth-bounded loop plus response assembly.  If the loop body never ran
(`process_depth <= 0`) the source hits an unbound local (`NameError`) while
assembling the statistics and answers 500. -/
def runCrawlLoop (validUrl : String → Bool) (resolve : String → String → String)
    (F : String → Except String (List Html)) (urlOpt : Option String) (pd : Int)
    (st : Store) : CrawlResp × Store :=
  let r := crawlLoop validUrl resolve F urlOpt (List.range pd.toNat) st
  match r.1 with
  | some resp => (resp, r.2)
  | none => if pd ≤ 0 then (CrawlResp.serverError, r.2) else (crawlStats r.2, r.2)

/-- `recursive_crawl`: seed only when the frontier collection is empty (with
URL validation and depth parsing, defaulting the depth to 1 when absent or
unconvertible), then run the depth-bounded crawl loop. -/
def recursive_crawl (validUrl : String → Bool) (resolve : String → String → String)
    (F : String → Except String (List Html)) (body : Option ReqBody) (st : Store) :
    CrawlResp × Store :=
  if st.links.length == 0 then
    match body with
    | some ⟨some u, dep⟩ =>
      let pd : Int := match dep with
        | some j => (jsonToInt j).getD 1
        | none => 1
      if !validUrl u then (CrawlResp.invalidUrl u, st)
      else runCrawlLoop validUrl resolve F (some u) pd (insertLinkDoc st u none 0)
    | some ⟨none, _⟩ => (CrawlResp.urlRequired, st)
    | none => (CrawlResp.urlRequired, st)
  else runCrawlLoop validUrl resolve F none 1 st


/-! ### Counting helpers -/

/-- Number of elements satisfying a predicate. -/
def countP (q : α → Bool) (l : List α) : Nat :=
  (l.filter q).length

theorem countP_append (q : α → Bool) (l1 l2 : List α) :
    countP q (l1 ++ l2) = countP q l1 + countP q l2 := by
  simp [countP, List.filter_append]

theorem countP_single (q : α → Bool) (d : α) :
    countP q [d] = if q d then 1 else 0 := by
  simp only [countP, List.filter]
  split <;> simp_all

theorem countP_zero_of_find?_none {q : α → Bool} {l : List α}
    (h : l.find? q = none) : countP q l = 0 := by
  have hall := List.find?_eq_none.mp h
  simp only [countP, List.length_eq_zero]
  exact List.filter_eq_nil_iff.mpr fun a ha => by simpa using hall a ha

theorem countP_updateFirst (p : α → Bool) (f : α → α) (q : α → Bool)
    (hq : ∀ a, q (f a) = q a) :
    ∀ l : List α, countP q (updateFirst p f l) = countP q l := by
  intro l
  induction l with
  | nil => rfl
  | cons x xs ih =>
    simp only [updateFirst]
    have ih2 : (List.filter q (updateFirst p f xs)).length = (List.filter q xs).length := ih
    split
    · simp only [countP, List.filter_cons, hq x]
      split <;> simp
    · simp only [countP, List.filter_cons]
      split <;> simp [ih2]

theorem countP_le_one_insert {k : α → String} {l : List α} {x : String} {d : α}
    (h : l.find? (fun e => k e == x) = none) (hd : k d = x)
    (hl : ∀ w, countP (fun e => k e == w) l ≤ 1) :
    ∀ w, countP (fun e => k e == w) (l ++ [d]) ≤ 1 := by
  intro w
  rw [countP_append, countP_single]
  by_cases hw : (k d == w) = true
  · have hdw : k d = w := beq_iff_eq.mp hw
    have h0 : countP (fun e => k e == w) l = 0 := by
      rw [← hdw, hd]
      exact countP_zero_of_find?_none h
    simp [hw, h0]
  · have hw2 : (k d == w) = false := by simpa using hw
    simp only [hw2, Bool.false_eq_true, if_false, Nat.add_zero]
    exact hl w

/-! ### Claim C2: per-URL uniqueness is preserved by the crawl -/

/-- Number of frontier entries whose `link` is exactly `u`. -/
def linkCount (l : List LinkDoc) (u : String) : Nat :=
  countP (fun e => e.link == u) l

/-- Number of content tasks whose `link` is exactly `u`. -/
def taskCount (l : List TaskDoc) (u : String) : Nat :=
  countP (fun t => t.link == u) l

/-- Invariant: at most one `LinkEntry` per distinct URL string. -/
def LinksUniq (st : Store) : Prop := ∀ w, linkCount st.links w ≤ 1

/-- Invariant: at most one `ContentTask` per distinct URL string. -/
def TasksUniq (st : Store) : Prop := ∀ w, taskCount st.tasks w ≤ 1

theorem insertLinkDoc_links_uniq {st : Store} {link : String} {src : Option String} {dep : Nat}
    (hg : st.links.find? (fun e => e.link == link) = none) (hL : LinksUniq st) :
    LinksUniq (insertLinkDoc st link src dep) := by
  intro w
  show countP (fun e => e.link == w)
    (st.links ++ [⟨st.nextId, link, false, dep, src, none⟩]) ≤ 1
  exact countP_le_one_insert hg rfl hL w

theorem insertTaskDoc_tasks_uniq {st : Store} {link src : String} {hasText : Bool} {dep : Nat}
    (hg : st.tasks.find? (fun t => t.link == link) = none) (hT : TasksUniq st) :
    TasksUniq (insertTaskDoc st link src hasText dep) := by
  intro w
  show countP (fun t => t.link == w)
    (st.tasks ++ [⟨st.nextId, link, false, src, hasText, dep, none⟩]) ≤ 1
  exact countP_le_one_insert hg rfl hT w

theorem storeDiscoveredLink_uniq {iw : Bool} {src : String} {d : Nat} {st : Store}
    {link : String} (hL : LinksUniq st) (hT : TasksUniq st) :
    LinksUniq (storeDiscoveredLink iw src d st link) ∧
      TasksUniq (storeDiscoveredLink iw src d st link) := by
  unfold storeDiscoveredLink
  by_cases hg1 : (st.links.find? fun e => e.link == link).isNone = true
  · simp only [hg1, if_true]
    have hL1 : LinksUniq (insertLinkDoc st link (some src) (d + 1)) :=
      insertLinkDoc_links_uniq (Option.isNone_iff_eq_none.mp hg1) hL
    have hT1 : TasksUniq (insertLinkDoc st link (some src) (d + 1)) := hT
    by_cases hg2 : ((iw || contains_text_in_url link) &&
        ((insertLinkDoc st link (some src) (d + 1)).tasks.find? fun t => t.link == link).isNone) = true
    · rw [if_pos hg2]
      have hg2b := hg2
      simp only [Bool.and_eq_true] at hg2b
      have hfind := Option.isNone_iff_eq_none.mp hg2b.2
      exact ⟨hL1, insertTaskDoc_tasks_uniq hfind hT1⟩
    · rw [if_neg hg2]
      exact ⟨hL1, hT1⟩
  · simp only [hg1, Bool.false_eq_true, if_false]
    by_cases hg2 : ((iw || contains_text_in_url link) &&
        (st.tasks.find? fun t => t.link == link).isNone) = true
    · rw [if_pos hg2]
      have hg2b := hg2
      simp only [Bool.and_eq_true] at hg2b
      have hfind := Option.isNone_iff_eq_none.mp hg2b.2
      exact ⟨hL, insertTaskDoc_tasks_uniq hfind hT⟩
    · rw [if_neg hg2]
      exact ⟨hL, hT⟩

theorem storeDiscovered_uniq {iw : Bool} {src : String} {d : Nat} :
    ∀ (ls : List String) (st : Store), LinksUniq st → TasksUniq st →
      LinksUniq (storeDiscovered iw src d ls st) ∧
        TasksUniq (storeDiscovered iw src d ls st) := by
  intro ls
  induction ls with
  | nil => exact fun st hL hT => ⟨hL, hT⟩
  | cons x xs ih =>
    intro st hL hT
    have h1 : LinksUniq (storeDiscoveredLink iw src d st x) ∧
        TasksUniq (storeDiscoveredLink iw src d st x) :=
      storeDiscoveredLink_uniq hL hT
    exact ih _ h1.1 h1.2

theorem markLinkCrawled_uniq {st : Store} {docId : Nat} (hL : LinksUniq st) (hT : TasksUniq st) :
    LinksUniq (markLinkCrawled st docId) ∧ TasksUniq (markLinkCrawled st docId) := by
  refine ⟨?_, hT⟩
  intro w
  show countP (fun e => e.link == w) (updateFirst (fun e => e.id == docId)
    (fun e => { e with is_crawled := true }) st.links) ≤ 1
  rw [countP_updateFirst (fun e => e.id == docId)
    (fun e => { e with is_crawled := true }) (fun e => e.link == w) (fun a => rfl) st.links]
  exact hL w

theorem markLinkCrawledErr_uniq {st : Store} {docId : Nat} {msg : String}
    (hL : LinksUniq st) (hT : TasksUniq st) :
    LinksUniq (markLinkCrawledErr st docId msg) ∧ TasksUniq (markLinkCrawledErr st docId msg) := by
  refine ⟨?_, hT⟩
  intro w
  show countP (fun e => e.link == w) (updateFirst (fun e => e.id == docId)
    (fun e => { e with is_crawled := true, error := some msg }) st.links) ≤ 1
  rw [countP_updateFirst (fun e => e.id == docId)
    (fun e => { e with is_crawled := true, error := some msg }) (fun e => e.link == w)
    (fun a => rfl) st.links]
  exact hL w

theorem ensureSelfTask_uniq {iw : Bool} {c : LinkDoc} {st : Store}
    (hL : LinksUniq st) (hT : TasksUniq st) :
    LinksUniq (ensureSelfTask iw c st) ∧ TasksUniq (ensureSelfTask iw c st) := by
  unfold ensureSelfTask
  by_cases hg : (st.tasks.find? fun t => t.link == c.link).isNone = true
  · rw [if_pos hg]
    exact ⟨hL, insertTaskDoc_tasks_uniq (Option.isNone_iff_eq_none.mp hg) hT⟩
  · rw [if_neg hg]
    exact ⟨hL, hT⟩

theorem crawlIter_uniq {V : String → Bool} {R : String → String → String}
    {F : String → Except String (List Html)} {uo : Option String} {i : Nat} {st : Store}
    (hL : LinksUniq st) (hT : TasksUniq st) :
    LinksUniq (crawlIter V R F uo i st).2 ∧ TasksUniq (crawlIter V R F uo i st).2 := by
  unfold crawlIter
  cases hsel : selectCandidate uo i st with
  | none => exact ⟨hL, hT⟩
  | some c =>
    dsimp only
    cases hF : F c.link with
    | error e =>
      dsimp only
      exact markLinkCrawledErr_uniq hL hT
    | ok doc =>
      dsimp only
      have h1L : LinksUniq (insertSnapDoc st c.link
          (extractPageLinks (isWikiUrl c.link) V R c.link doc) c.depth) := hL
      have h1T : TasksUniq (insertSnapDoc st c.link
          (extractPageLinks (isWikiUrl c.link) V R c.link doc) c.depth) := hT
      have h2 : LinksUniq (storeDiscovered (isWikiUrl c.link) c.link c.depth
            (extractPageLinks (isWikiUrl c.link) V R c.link doc)
            (insertSnapDoc st c.link (extractPageLinks (isWikiUrl c.link) V R c.link doc)
              c.depth)) ∧
          TasksUniq (storeDiscovered (isWikiUrl c.link) c.link c.depth
            (extractPageLinks (isWikiUrl c.link) V R c.link doc)
            (insertSnapDoc st c.link (extractPageLinks (isWikiUrl c.link) V R c.link doc)
              c.depth)) :=
        storeDiscovered_uniq _ _ h1L h1T
      have h3 : LinksUniq (markLinkCrawled (storeDiscovered (isWikiUrl c.link) c.link c.depth
            (extractPageLinks (isWikiUrl c.link) V R c.link doc)
            (insertSnapDoc st c.link (extractPageLinks (isWikiUrl c.link) V R c.link doc)
              c.depth)) c.id) ∧
          TasksUniq (markLinkCrawled (storeDiscovered (isWikiUrl c.link) c.link c.depth
            (extractPageLinks (isWikiUrl c.link) V R c.link doc)
            (insertSnapDoc st c.link (extractPageLinks (isWikiUrl c.link) V R c.link doc)
              c.depth)) c.id) :=
        markLinkCrawled_uniq h2.1 h2.2
      exact ensureSelfTask_uniq h3.1 h3.2

theorem crawlLoop_uniq {V : String → Bool} {R : String → String → String}
    {F : String → Except String (List Html)} {uo : Option String} :
    ∀ (iters : List Nat) (st : Store), LinksUniq st → TasksUniq st →
      LinksUniq (crawlLoop V R F uo iters st).2 ∧ TasksUniq (crawlLoop V R F uo iters st).2 := by
  intro iters
  induction iters with
  | nil => exact fun st hL hT => ⟨hL, hT⟩
  | cons i rest ih =>
    intro st hL hT
    have hi : LinksUniq (crawlIter V R F uo i st).2 ∧ TasksUniq (crawlIter V R F uo i st).2 :=
      crawlIter_uniq hL hT
    unfold crawlLoop
    dsimp only
    cases ho : (crawlIter V R F uo i st).1 with
    | some resp =>
      dsimp only
      exact hi
    | none =>
      dsimp only
      exact ih _ hi.1 hi.2

theorem runCrawlLoop_uniq {V : String → Bool} {R : String → String → String}
    {F : String → Except String (List Html)} {uo : Option String} {pd : Int} {st : Store}
    (hL : LinksUniq st) (hT : TasksUniq st) :
    LinksUniq (runCrawlLoop V R F uo pd st).2 ∧ TasksUniq (runCrawlLoop V R F uo pd st).2 := by
  have h : LinksUniq (crawlLoop V R F uo (List.range pd.toNat) st).2 ∧
      TasksUniq (crawlLoop V R F uo (List.range pd.toNat) st).2 :=
    crawlLoop_uniq (List.range pd.toNat) st hL hT
  unfold runCrawlLoop
  dsimp only
  cases ho : (crawlLoop V R F uo (List.range pd.toNat) st).1 with
  | some resp =>
    dsimp only
    exact h
  | none =>
    dsimp only
    by_cases hpd : pd ≤ 0
    · rw [if_pos hpd]
      exact h
    · rw [if_neg hpd]
      exact h

/-- C2: starting from a store in which every URL string has at most one
frontier entry (`LinkEntry`) and at most one content task (`ContentTask`), a
single `recursive_crawl` invocation preserves both bounds for every URL —
inserts are guarded by exact-string existence checks, and the only unguarded
insert (the seed) happens into an empty frontier. -/
theorem crawl_preserves_uniqueness (V : String → Bool) (R : String → String → String)
    (F : String → Except String (List Html)) (body : Option ReqBody) (st : Store)
    (u : String) (hL : ∀ w, linkCount st.links w ≤ 1) (hT : ∀ w, taskCount st.tasks w ≤ 1) :
    linkCount (recursive_crawl V R F body st).2.links u ≤ 1 ∧
      taskCount (recursive_crawl V R F body st).2.tasks u ≤ 1 := by
  unfold recursive_crawl
  by_cases hempty : (st.links.length == 0) = true
  · rw [if_pos hempty]
    have hnil : st.links = [] := List.length_eq_zero.mp (by simpa using hempty)
    rcases body with _ | ⟨url, dep⟩
    · exact ⟨hL u, hT u⟩
    · rcases url with _ | u0
      · exact ⟨hL u, hT u⟩
      dsimp only
      by_cases hv : (!V u0) = true
      · rw [if_pos hv]
        exact ⟨hL u, hT u⟩
      · rw [if_neg hv]
        have hLseed : LinksUniq (insertLinkDoc st u0 none 0) := by
          intro w
          show countP (fun e => e.link == w)
            (st.links ++ [⟨st.nextId, u0, false, 0, none, none⟩]) ≤ 1
          rw [hnil, List.nil_append, countP_single]
          split <;> simp
        have hTseed : TasksUniq (insertLinkDoc st u0 none 0) := fun w => hT w
        have h : LinksUniq (runCrawlLoop V R F (some u0) (match dep with
              | some j => (jsonToInt j).getD 1
              | none => 1) (insertLinkDoc st u0 none 0)).2 ∧
            TasksUniq (runCrawlLoop V R F (some u0) (match dep with
              | some j => (jsonToInt j).getD 1
              | none => 1) (insertLinkDoc st u0 none 0)).2 :=
          runCrawlLoop_uniq hLseed hTseed
        exact ⟨h.1 u, h.2 u⟩
  · rw [if_neg hempty]
    have h : LinksUniq (runCrawlLoop V R F none 1 st).2 ∧
        TasksUniq (runCrawlLoop V R F none 1 st).2 :=
      runCrawlLoop_uniq hL hT
    exact ⟨h.1 u, h.2 u⟩

/-- C2 witness: a concrete crawl from an empty store, seeded with a page whose
anchors repeat the same URL, keeps at most one record per URL. -/
theorem crawl_preserves_uniqueness_witness :
    linkCount (recursive_crawl (fun _ => true) (fun _ h => h)
      (fun u => if u == "http://a.test/blog" then
          Except.ok [Html.elem "a" ⟨none, [], some "http://a.test/blog2"⟩ [],
            Html.elem "a" ⟨none, [], some "http://a.test/blog2"⟩ []]
        else Except.error "down")
      (some ⟨some "http://a.test/blog", some (JVal.num 2)⟩) emptyStore).2.links
      "http://a.test/blog2" ≤ 1 ∧
    taskCount (recursive_crawl (fun _ => true) (fun _ h => h)
      (fun u => if u == "http://a.test/blog" then
          Except.ok [Html.elem "a" ⟨none, [], some "http://a.test/blog2"⟩ [],
            Html.elem "a" ⟨none, [], some "http://a.test/blog2"⟩ []]
        else Except.error "down")
      (some ⟨some "http://a.test/blog", some (JVal.num 2)⟩) emptyStore).2.tasks
      "http://a.test/blog2" ≤ 1 :=
  crawl_preserves_uniqueness _ _ _ _ _ _
    (fun w => by simp [emptyStore, linkCount, countP])
    (fun w => by simp [emptyStore, taskCount, countP])

/-! ### Claim C1: the seed is honored exactly on an empty frontier -/

/-- Some frontier entry records URL `u` at depth 0. -/
def hasSeedEntry (st : Store) (u : String) : Prop :=
  ∃ e ∈ st.links, e.link = u ∧ e.depth = 0

theorem exists_link_depth_updateFirst {p : LinkDoc → Bool} {f : LinkDoc → LinkDoc}
    (hf : ∀ a, (f a).link = a.link ∧ (f a).depth = a.depth) {u : String} {dv : Nat} :
    ∀ {l : List LinkDoc}, (∃ e ∈ l, e.link = u ∧ e.depth = dv) →
      ∃ e ∈ updateFirst p f l, e.link = u ∧ e.depth = dv := by
  intro l
  induction l with
  | nil => simp
  | cons x xs ih =>
    rintro ⟨e, he, hprop⟩
    rcases List.mem_cons.mp he with rfl | he
    · simp only [updateFirst]
      split
      · exact ⟨f e, List.mem_cons_self _ _, (hf e).1.trans hprop.1, (hf e).2.trans hprop.2⟩
      · exact ⟨e, List.mem_cons_self _ _, hprop⟩
    · simp only [updateFirst]
      split
      · exact ⟨e, List.mem_cons_of_mem _ he, hprop⟩
      · obtain ⟨e2, he2, hp2⟩ := ih ⟨e, he, hprop⟩
        exact ⟨e2, List.mem_cons_of_mem _ he2, hp2⟩

theorem hasSeedEntry_append {st : Store} {u : String} (h : hasSeedEntry st u)
    (l2 : List LinkDoc) : ∃ e ∈ st.links ++ l2, e.link = u ∧ e.depth = 0 := by
  obtain ⟨e, he, hp⟩ := h
  exact ⟨e, List.mem_append_left _ he, hp⟩

theorem storeDiscoveredLink_links (iw : Bool) (src : String) (d : Nat) (st : Store)
    (link : String) :
    (storeDiscoveredLink iw src d st link).links =
      (if (st.links.find? fun e => e.link == link).isNone then
        insertLinkDoc st link (some src) (d + 1) else st).links := by
  unfold storeDiscoveredLink
  dsimp only
  generalize (if (st.links.find? (fun e => e.link == link)).isNone = true then
    insertLinkDoc st link (some src) (d + 1) else st) = st1
  generalize (if iw = true then true else contains_text_in_url link) = htv
  split
  · rfl
  · rfl

theorem ensureSelfTask_links (iw : Bool) (c : LinkDoc) (st : Store) :
    (ensureSelfTask iw c st).links = st.links := by
  unfold ensureSelfTask
  generalize (if (c.depth == 0) = true then "seed_url" else c.source_url.getD "unknown") = srcv
  generalize (if iw = true then true else contains_text_in_url c.link) = htv
  split
  · rfl
  · rfl

theorem storeDiscoveredLink_seed {iw : Bool} {src : String} {d : Nat} {st : Store}
    {link : String} {u : String} (h : hasSeedEntry st u) :
    hasSeedEntry (storeDiscoveredLink iw src d st link) u := by
  unfold hasSeedEntry
  rw [storeDiscoveredLink_links]
  split
  · exact hasSeedEntry_append h _
  · exact h

theorem storeDiscovered_seed {iw : Bool} {src : String} {d : Nat} {u : String} :
    ∀ (ls : List String) (st : Store), hasSeedEntry st u →
      hasSeedEntry (storeDiscovered iw src d ls st) u := by
  intro ls
  induction ls with
  | nil => exact fun st h => h
  | cons x xs ih => exact fun st h => ih _ (storeDiscoveredLink_seed h)

theorem crawlIter_seed {V : String → Bool} {R : String → String → String}
    {F : String → Except String (List Html)} {uo : Option String} {i : Nat} {st : Store}
    {u : String} (h : hasSeedEntry st u) : hasSeedEntry (crawlIter V R F uo i st).2 u := by
  unfold crawlIter
  cases hsel : selectCandidate uo i st with
  | none => exact h
  | some c =>
    dsimp only
    cases hF : F c.link with
    | error err =>
      dsimp only
      exact exists_link_depth_updateFirst (p := fun e => e.id == c.id)
        (f := fun e => { e with is_crawled := true, error := some ("Request error: " ++ err) })
        (fun a => ⟨rfl, rfl⟩) h
    | ok doc =>
      dsimp only
      have h1 : hasSeedEntry (insertSnapDoc st c.link
          (extractPageLinks (isWikiUrl c.link) V R c.link doc) c.depth) u := h
      have h2 : hasSeedEntry (storeDiscovered (isWikiUrl c.link) c.link c.depth
          (extractPageLinks (isWikiUrl c.link) V R c.link doc)
          (insertSnapDoc st c.link (extractPageLinks (isWikiUrl c.link) V R c.link doc)
            c.depth)) u :=
        storeDiscovered_seed _ _ h1
      have h3 : hasSeedEntry (markLinkCrawled (storeDiscovered (isWikiUrl c.link) c.link c.depth
          (extractPageLinks (isWikiUrl c.link) V R c.link doc)
          (insertSnapDoc st c.link (extractPageLinks (isWikiUrl c.link) V R c.link doc) c.depth))
          c.id) u :=
        exists_link_depth_updateFirst (p := fun e => e.id == c.id)
          (f := fun e => { e with is_crawled := true }) (fun a => ⟨rfl, rfl⟩) h2
      unfold hasSeedEntry
      rw [ensureSelfTask_links]
      exact h3

theorem crawlLoop_seed {V : String → Bool} {R : String → String → String}
    {F : String → Except String (List Html)} {uo : Option String} {u : String} :
    ∀ (iters : List Nat) (st : Store), hasSeedEntry st u →
      hasSeedEntry (crawlLoop V R F uo iters st).2 u := by
  intro iters
  induction iters with
  | nil => exact fun st h => h
  | cons i rest ih =>
    intro st h
    unfold crawlLoop
    dsimp only
    cases ho : (crawlIter V R F uo i st).1 with
    | some resp =>
      dsimp only
      exact crawlIter_seed h
    | none =>
      dsimp only
      exact ih _ (crawlIter_seed h)

theorem runCrawlLoop_seed {V : String → Bool} {R : String → String → String}
    {F : String → Except String (List Html)} {uo : Option String} {pd : Int} {st : Store}
    {u : String} (h : hasSeedEntry st u) : hasSeedEntry (runCrawlLoop V R F uo pd st).2 u := by
  have h2 : hasSeedEntry (crawlLoop V R F uo (List.range pd.toNat) st).2 u :=
    crawlLoop_seed (List.range pd.toNat) st h
  unfold runCrawlLoop
  dsimp only
  cases ho : (crawlLoop V R F uo (List.range pd.toNat) st).1 with
  | some resp =>
    dsimp only
    exact h2
  | none =>
    dsimp only
    by_cases hpd : pd ≤ 0
    · rw [if_pos hpd]
      exact h2
    · rw [if_neg hpd]
      exact h2

/-- The predicate "is a depth-0 entry for `u`". -/
def isSeedDoc (u : String) (e : LinkDoc) : Bool :=
  e.link == u && e.depth == 0

theorem countP_append_single_false {q : α → Bool} {l : List α} {d : α} (hd : q d = false) :
    countP q (l ++ [d]) = countP q l := by
  rw [countP_append, countP_single, hd]
  simp

theorem storeDiscoveredLink_d0 {iw : Bool} {src : String} {d : Nat} {st : Store}
    {link : String} {u : String} :
    countP (isSeedDoc u) (storeDiscoveredLink iw src d st link).links =
      countP (isSeedDoc u) st.links := by
  have hq : isSeedDoc u (⟨st.nextId, link, false, d + 1, some src, none⟩ : LinkDoc) = false := by
    simp [isSeedDoc]
  rw [storeDiscoveredLink_links]
  split
  · exact countP_append_single_false hq
  · rfl

theorem storeDiscovered_d0 {iw : Bool} {src : String} {d : Nat} {u : String} :
    ∀ (ls : List String) (st : Store),
      countP (isSeedDoc u) (storeDiscovered iw src d ls st).links =
        countP (isSeedDoc u) st.links := by
  intro ls
  induction ls with
  | nil => exact fun st => rfl
  | cons x xs ih =>
    intro st
    exact (ih _).trans storeDiscoveredLink_d0

theorem crawlIter_d0 {V : String → Bool} {R : String → String → String}
    {F : String → Except String (List Html)} {uo : Option String} {i : Nat} {st : Store}
    {u : String} :
    countP (isSeedDoc u) (crawlIter V R F uo i st).2.links =
      countP (isSeedDoc u) st.links := by
  unfold crawlIter
  cases hsel : selectCandidate uo i st with
  | none => rfl
  | some c =>
    dsimp only
    cases hF : F c.link with
    | error err =>
      dsimp only
      exact countP_updateFirst (fun e => e.id == c.id)
        (fun e => { e with is_crawled := true, error := some ("Request error: " ++ err) })
        (isSeedDoc u) (fun a => rfl) st.links
    | ok doc =>
      dsimp only
      have h2 : countP (isSeedDoc u) (storeDiscovered (isWikiUrl c.link) c.link c.depth
            (extractPageLinks (isWikiUrl c.link) V R c.link doc)
            (insertSnapDoc st c.link (extractPageLinks (isWikiUrl c.link) V R c.link doc)
              c.depth)).links =
          countP (isSeedDoc u) (insertSnapDoc st c.link
            (extractPageLinks (isWikiUrl c.link) V R c.link doc) c.depth).links :=
        storeDiscovered_d0 _ _
      have hmark : (markLinkCrawled (storeDiscovered (isWikiUrl c.link) c.link c.depth
            (extractPageLinks (isWikiUrl c.link) V R c.link doc)
            (insertSnapDoc st c.link (extractPageLinks (isWikiUrl c.link) V R c.link doc)
              c.depth)) c.id).links =
          updateFirst (fun e => e.id == c.id) (fun e => { e with is_crawled := true })
            (storeDiscovered (isWikiUrl c.link) c.link c.depth
              (extractPageLinks (isWikiUrl c.link) V R c.link doc)
              (insertSnapDoc st c.link (extractPageLinks (isWikiUrl c.link) V R c.link doc)
                c.depth)).links := rfl
      have hself : countP (isSeedDoc u) (ensureSelfTask (isWikiUrl c.link) c
            (markLinkCrawled (storeDiscovered (isWikiUrl c.link) c.link c.depth
              (extractPageLinks (isWikiUrl c.link) V R c.link doc)
              (insertSnapDoc st c.link (extractPageLinks (isWikiUrl c.link) V R c.link doc)
                c.depth)) c.id)).links =
          countP (isSeedDoc u) (markLinkCrawled (storeDiscovered (isWikiUrl c.link) c.link
              c.depth (extractPageLinks (isWikiUrl c.link) V R c.link doc)
              (insertSnapDoc st c.link (extractPageLinks (isWikiUrl c.link) V R c.link doc)
                c.depth)) c.id).links := by
        unfold ensureSelfTask
        split <;> rfl
      rw [hself, hmark, countP_updateFirst (fun e => e.id == c.id)
        (fun e => { e with is_crawled := true }) (isSeedDoc u) (fun a => rfl)]
      exact h2

theorem crawlLoop_d0 {V : String → Bool} {R : String → String → String}
    {F : String → Except String (List Html)} {uo : Option String} {u : String} :
    ∀ (iters : List Nat) (st : Store),
      countP (isSeedDoc u) (crawlLoop V R F uo iters st).2.links =
        countP (isSeedDoc u) st.links := by
  intro iters
  induction iters with
  | nil => exact fun st => rfl
  | cons i rest ih =>
    intro st
    unfold crawlLoop
    dsimp only
    cases ho : (crawlIter V R F uo i st).1 with
    | some resp =>
      dsimp only
      exact crawlIter_d0
    | none =>
      dsimp only
      exact (ih _).trans crawlIter_d0

theorem runCrawlLoop_d0 {V : String → Bool} {R : String → String → String}
    {F : String → Except String (List Html)} {uo : Option String} {pd : Int} {st : Store}
    {u : String} :
    countP (isSeedDoc u) (runCrawlLoop V R F uo pd st).2.links =
      countP (isSeedDoc u) st.links := by
  have h2 : countP (isSeedDoc u) (crawlLoop V R F uo (List.range pd.toNat) st).2.links =
      countP (isSeedDoc u) st.links :=
    crawlLoop_d0 (List.range pd.toNat) st
  unfold runCrawlLoop
  dsimp only
  cases ho : (crawlLoop V R F uo (List.range pd.toNat) st).1 with
  | some resp =>
    dsimp only
    exact h2
  | none =>
    dsimp only
    by_cases hpd : pd ≤ 0
    · rw [if_pos hpd]
      exact h2
    · rw [if_neg hpd]
      exact h2

/-- Modelled from the spec: a stand-in for the external `validators.url`
grammar check (`isSyntacticallyValid`), adequate for the concrete inputs used
here: a valid URL must carry an http(s) scheme. -/
def specUrlValidator (u : String) : Bool :=
  strStartsWith u "http://" || strStartsWith u "https://"

/-- C1 counterexample: the claim as stated ("a depth-0 entry is inserted if
and only if the frontier is empty") fails on a request whose URL does not pass
URL validation: the frontier is empty at invocation start, yet the request is
rejected with 400 and no depth-0 entry is created. -/
theorem seed_iff_empty_counterexample :
    emptyStore.links = [] ∧
      (recursive_crawl specUrlValidator (fun _ h => h) (fun _ => Except.error "net")
          (some ⟨some "not-a-url", none⟩) emptyStore).2.links.filter
        (fun e => e.link == "not-a-url" && e.depth == 0) = [] := by
  exact ⟨rfl, by decide⟩

/-- C1 (amended): for a crawl request supplying a URL, a new depth-0 frontier
entry for that URL is created if and only if the frontier is empty at
invocation start *and* the URL passes URL validation; when the frontier is
non-empty the request body is ignored entirely (the result is that of a
URL-less invocation) and the set of depth-0 entries for the supplied URL is
unchanged. -/
theorem seed_inserted_iff_empty_and_valid (V : String → Bool)
    (R : String → String → String) (F : String → Except String (List Html))
    (b : ReqBody) (st : Store) (u : String) (hu : b.url = some u) :
    ((st.links = [] ∧ V u = true) →
      ∃ e ∈ (recursive_crawl V R F (some b) st).2.links, e.link = u ∧ e.depth = 0) ∧
    (¬(st.links = [] ∧ V u = true) →
      countP (isSeedDoc u) (recursive_crawl V R F (some b) st).2.links =
        countP (isSeedDoc u) st.links) ∧
    (st.links ≠ [] → recursive_crawl V R F (some b) st = recursive_crawl V R F none st) := by
  obtain ⟨url, dep⟩ := b
  dsimp only at hu
  subst hu
  refine ⟨?_, ?_, ?_⟩
  · rintro ⟨hnil, hv⟩
    unfold recursive_crawl
    have hlen : (st.links.length == 0) = true := by simp [hnil]
    rw [if_pos hlen]
    dsimp only
    have hvneg : ¬((!V u) = true) := by simp [hv]
    rw [if_neg hvneg]
    have hseed : hasSeedEntry (insertLinkDoc st u none 0) u :=
      ⟨⟨st.nextId, u, false, 0, none, none⟩, by
        show _ ∈ st.links ++ [_]
        exact List.mem_append_right _ (List.mem_cons_self _ _), rfl, rfl⟩
    exact runCrawlLoop_seed hseed
  · intro hno
    unfold recursive_crawl
    by_cases hlen : (st.links.length == 0) = true
    · rw [if_pos hlen]
      dsimp only
      have hnil : st.links = [] := List.length_eq_zero.mp (by simpa using hlen)
      have hv : ¬(V u = true) := fun hv => hno ⟨hnil, hv⟩
      have hvpos : (!V u) = true := by simpa using hv
      rw [if_pos hvpos]
    · rw [if_neg hlen]
      exact runCrawlLoop_d0
  · intro hne
    unfold recursive_crawl
    have hlen : ¬((st.links.length == 0) = true) := by
      simpa using fun h => hne (List.length_eq_zero.mp h)
    rw [if_neg hlen, if_neg hlen]

/-- A concrete non-empty frontier for the C1 witness. -/
def c1Store : Store :=
  ⟨[⟨0, "http://old.test/x", false, 0, none, none⟩], [], [], [], 1⟩

/-- C1 amended-claim witness: a concrete invocation on a non-empty frontier
ignores the supplied URL. -/
theorem seed_inserted_iff_empty_and_valid_witness :
    ((c1Store.links = [] ∧ (fun (_ : String) => true) "http://new.test/y" = true) →
      ∃ e ∈ (recursive_crawl (fun _ => true) (fun _ h => h) (fun _ => Except.error "net")
        (some ⟨some "http://new.test/y", none⟩) c1Store).2.links,
        e.link = "http://new.test/y" ∧ e.depth = 0) ∧
    (¬(c1Store.links = [] ∧ (fun (_ : String) => true) "http://new.test/y" = true) →
      countP (isSeedDoc "http://new.test/y")
        (recursive_crawl (fun _ => true) (fun _ h => h) (fun _ => Except.error "net")
          (some ⟨some "http://new.test/y", none⟩) c1Store).2.links =
      countP (isSeedDoc "http://new.test/y") c1Store.links) ∧
    (c1Store.links ≠ [] →
      recursive_crawl (fun _ => true) (fun _ h => h) (fun _ => Except.error "net")
        (some ⟨some "http://new.test/y", none⟩) c1Store =
      recursive_crawl (fun _ => true) (fun _ h => h) (fun _ => Except.error "net") none
        c1Store) :=
  seed_inserted_iff_empty_and_valid (fun _ => true) (fun _ h => h) (fun _ => Except.error "net")
    ⟨some "http://new.test/y", none⟩ c1Store "http://new.test/y" rfl

/-! ### Claim C3: depth propagation -/

theorem mem_updateFirst {p : α → Bool} {f : α → α} :
    ∀ {l : List α} {e : α}, e ∈ updateFirst p f l → ∃ a ∈ l, e = a ∨ e = f a := by
  intro l
  induction l with
  | nil => intro e h; simp [updateFirst] at h
  | cons x xs ih =>
    intro e h
    simp only [updateFirst] at h
    by_cases hx : p x = true
    · rw [if_pos hx] at h
      rcases List.mem_cons.mp h with rfl | h
      · exact ⟨x, List.mem_cons_self _ _, Or.inr rfl⟩
      · exact ⟨e, List.mem_cons_of_mem _ h, Or.inl rfl⟩
    · rw [if_neg hx] at h
      rcases List.mem_cons.mp h with rfl | h
      · exact ⟨e, List.mem_cons_self _ _, Or.inl rfl⟩
      · obtain ⟨a, ha, hor⟩ := ih h
        exact ⟨a, List.mem_cons_of_mem _ ha, hor⟩

theorem storeDiscoveredLink_links_mem {iw : Bool} {src : String} {d : Nat} {st : Store}
    {link : String} {e : LinkDoc}
    (h : e ∈ (storeDiscoveredLink iw src d st link).links) :
    e ∈ st.links ∨ e.depth = d + 1 := by
  rw [storeDiscoveredLink_links] at h
  revert h
  split
  · intro h
    rcases List.mem_append.mp h with h | h
    · exact Or.inl h
    · rcases List.mem_cons.mp h with rfl | h
      · exact Or.inr rfl
      · simp at h
  · exact Or.inl

theorem storeDiscovered_links_mem {iw : Bool} {src : String} {d : Nat} :
    ∀ (ls : List String) (st : Store) (e : LinkDoc),
      e ∈ (storeDiscovered iw src d ls st).links → e ∈ st.links ∨ e.depth = d + 1 := by
  intro ls
  induction ls with
  | nil => exact fun st e h => Or.inl h
  | cons x xs ih =>
    intro st e h
    rcases ih _ e h with h2 | h2
    · exact storeDiscoveredLink_links_mem h2
    · exact Or.inr h2

theorem storeDiscoveredLink_tasks_mem {iw : Bool} {src : String} {d : Nat} {st : Store}
    {link : String} {t : TaskDoc}
    (h : t ∈ (storeDiscoveredLink iw src d st link).tasks) :
    t ∈ st.tasks ∨ t.depth = d + 1 := by
  unfold storeDiscoveredLink at h
  revert h
  generalize hst1 : (if (st.links.find? (fun e => e.link == link)).isNone = true then
    insertLinkDoc st link (some src) (d + 1) else st) = st1
  have htasks : st1.tasks = st.tasks := by
    rw [← hst1]
    split
    · rfl
    · rfl
  generalize (if iw = true then true else contains_text_in_url link) = htv
  dsimp only
  split
  · intro h
    have h2 : t ∈ st1.tasks ++ [⟨st1.nextId, link, false, src, htv, d + 1, none⟩] := h
    rcases List.mem_append.mp h2 with h3 | h3
    · exact Or.inl (htasks ▸ h3)
    · rcases List.mem_cons.mp h3 with rfl | h3
      · exact Or.inr rfl
      · simp at h3
  · intro h
    exact Or.inl (htasks ▸ h)

theorem storeDiscovered_tasks_mem {iw : Bool} {src : String} {d : Nat} :
    ∀ (ls : List String) (st : Store) (t : TaskDoc),
      t ∈ (storeDiscovered iw src d ls st).tasks → t ∈ st.tasks ∨ t.depth = d + 1 := by
  intro ls
  induction ls with
  | nil => exact fun st t h => Or.inl h
  | cons x xs ih =>
    intro st t h
    rcases ih _ t h with h2 | h2
    · exact storeDiscoveredLink_tasks_mem h2
    · exact Or.inr h2

theorem markLinkCrawled_links_eq (st : Store) (docId : Nat) :
    (markLinkCrawled st docId).links = updateFirst (fun e => e.id == docId)
      (fun e => { e with is_crawled := true }) st.links := rfl

theorem ensureSelfTask_tasks_mem {iw : Bool} {c : LinkDoc} {st : Store} {t : TaskDoc}
    (h : t ∈ (ensureSelfTask iw c st).tasks) :
    t ∈ st.tasks ∨ (t.link = c.link ∧ t.depth = c.depth) := by
  unfold ensureSelfTask at h
  revert h
  generalize (if (c.depth == 0) = true then "seed_url" else c.source_url.getD "unknown") = srcv
  generalize (if iw = true then true else contains_text_in_url c.link) = htv
  split
  · intro h
    have h2 : t ∈ st.tasks ++ [⟨st.nextId, c.link, false, srcv, htv, c.depth, none⟩] := h
    rcases List.mem_append.mp h2 with h3 | h3
    · exact Or.inl h3
    · rcases List.mem_cons.mp h3 with rfl | h3
      · exact Or.inr ⟨rfl, rfl⟩
      · simp at h3
  · exact Or.inl

/-- C3: in a crawl step of `recursive_crawl` that selects a frontier entry of
stored depth `d` and fetches successfully, every frontier entry and every
content task that was not already in the store is inserted with depth `d + 1`
— except for the candidate's own ensure-task, which records the candidate's
URL at depth `d` — and the seed entry itself is always inserted at depth 0. -/
theorem depth_propagation (V : String → Bool) (R : String → String → String)
    (F : String → Except String (List Html)) (uo : Option String) (i : Nat) (st : Store)
    (c : LinkDoc) (doc : List Html)
    (hc : selectCandidate uo i st = some c) (hf : F c.link = Except.ok doc) :
    (∀ e ∈ (crawlIter V R F uo i st).2.links,
      (∃ a ∈ st.links, e = a ∨ e = { a with is_crawled := true }) ∨ e.depth = c.depth + 1) ∧
    (∀ t ∈ (crawlIter V R F uo i st).2.tasks,
      t ∈ st.tasks ∨ t.depth = c.depth + 1 ∨ (t.link = c.link ∧ t.depth = c.depth)) ∧
    (∀ (u2 : String) (st2 : Store), ∃ e : LinkDoc,
      (insertLinkDoc st2 u2 none 0).links = st2.links ++ [e] ∧ e.link = u2 ∧ e.depth = 0) := by
  unfold crawlIter
  rw [hc]
  dsimp only
  rw [hf]
  dsimp only
  refine ⟨?_, ?_, ?_⟩
  · intro e he
    rw [show (ensureSelfTask (isWikiUrl c.link) c (markLinkCrawled
        (storeDiscovered (isWikiUrl c.link) c.link c.depth
          (extractPageLinks (isWikiUrl c.link) V R c.link doc)
          (insertSnapDoc st c.link (extractPageLinks (isWikiUrl c.link) V R c.link doc)
            c.depth)) c.id)).links = _ from ensureSelfTask_links _ _ _,
      markLinkCrawled_links_eq] at he
    obtain ⟨a, ha, hor⟩ := mem_updateFirst he
    rcases storeDiscovered_links_mem _ _ a ha with ha2 | ha2
    · have ha3 : a ∈ st.links := ha2
      exact Or.inl ⟨a, ha3, hor⟩
    · rcases hor with rfl | rfl
      · exact Or.inr ha2
      · exact Or.inr ha2
  · intro t ht
    rcases ensureSelfTask_tasks_mem ht with ht2 | ht2
    · have ht3 : t ∈ (storeDiscovered (isWikiUrl c.link) c.link c.depth
          (extractPageLinks (isWikiUrl c.link) V R c.link doc)
          (insertSnapDoc st c.link (extractPageLinks (isWikiUrl c.link) V R c.link doc)
            c.depth)).tasks := ht2
      rcases storeDiscovered_tasks_mem _ _ t ht3 with ht4 | ht4
      · exact Or.inl ht4
      · exact Or.inr (Or.inl ht4)
    · exact Or.inr (Or.inr ht2)
  · intro u2 st2
    exact ⟨⟨st2.nextId, u2, false, 0, none, none⟩, rfl, rfl, rfl⟩

/-- The concrete store for the C3 witness: one uncrawled entry at depth 2. -/
def c3Store : Store :=
  ⟨[⟨0, "http://x.test/a", false, 2, none, none⟩], [], [], [], 1⟩

/-- The fetch oracle for the C3 witness. -/
def c3Fetch : String → Except String (List Html) := fun u =>
  if u == "http://x.test/a" then
    Except.ok [Html.elem "a" ⟨none, [], some "http://x.test/blog"⟩ []]
  else Except.error "down"

/-- C3 witness: crawling the depth-2 entry inserts discovered links and tasks
at depth 3. -/
theorem depth_propagation_witness :
    (∀ e ∈ (crawlIter (fun _ => true) (fun _ h => h) c3Fetch none 0 c3Store).2.links,
      (∃ a ∈ c3Store.links, e = a ∨ e = { a with is_crawled := true }) ∨
        e.depth = (⟨0, "http://x.test/a", false, 2, none, none⟩ : LinkDoc).depth + 1) ∧
    (∀ t ∈ (crawlIter (fun _ => true) (fun _ h => h) c3Fetch none 0 c3Store).2.tasks,
      t ∈ c3Store.tasks ∨
        t.depth = (⟨0, "http://x.test/a", false, 2, none, none⟩ : LinkDoc).depth + 1 ∨
        (t.link = (⟨0, "http://x.test/a", false, 2, none, none⟩ : LinkDoc).link ∧
          t.depth = (⟨0, "http://x.test/a", false, 2, none, none⟩ : LinkDoc).depth)) ∧
    (∀ (u2 : String) (st2 : Store), ∃ e : LinkDoc,
      (insertLinkDoc st2 u2 none 0).links = st2.links ++ [e] ∧ e.link = u2 ∧ e.depth = 0) :=
  depth_propagation (fun _ => true) (fun _ h => h) c3Fetch none 0 c3Store
    ⟨0, "http://x.test/a", false, 2, none, none⟩
    [Html.elem "a" ⟨none, [], some "http://x.test/blog"⟩ []] rfl rfl

/-! ### Claim C10: an unconvertible depth silently defaults to 1 -/

/-- The responses that reject the request (400) or report a failure (500). -/
def isErrorResp : CrawlResp → Bool
  | .invalidUrl _ => true
  | .urlRequired => true
  | .serverError => true
  | _ => false

theorem crawlIter_some_resp {V : String → Bool} {R : String → String → String}
    {F : String → Except String (List Html)} {uo : Option String} {i : Nat} {st : Store}
    {r : CrawlResp} (h : (crawlIter V R F uo i st).1 = some r) :
    r = CrawlResp.noMoreLinks i := by
  unfold crawlIter at h
  revert h
  cases hsel : selectCandidate uo i st with
  | none =>
    dsimp only
    intro h
    exact (Option.some.inj h).symm
  | some c =>
    dsimp only
    cases hF : F c.link with
    | error e =>
      dsimp only
      intro h
      simp at h
    | ok doc =>
      dsimp only
      intro h
      simp at h

theorem crawlLoop_some_resp {V : String → Bool} {R : String → String → String}
    {F : String → Except String (List Html)} {uo : Option String} :
    ∀ (iters : List Nat) (st : Store) (r : CrawlResp),
      (crawlLoop V R F uo iters st).1 = some r → ∃ i, r = CrawlResp.noMoreLinks i := by
  intro iters
  induction iters with
  | nil =>
    intro st r h
    simp [crawlLoop] at h
  | cons i rest ih =>
    intro st r h
    unfold crawlLoop at h
    revert h
    dsimp only
    cases ho : (crawlIter V R F uo i st).1 with
    | some resp =>
      dsimp only
      intro h
      exact ⟨i, (Option.some.inj h).symm.trans (crawlIter_some_resp ho)⟩
    | none =>
      dsimp only
      exact ih _ r

theorem runCrawlLoop_pos_not_error {V : String → Bool} {R : String → String → String}
    {F : String → Except String (List Html)} {uo : Option String} {pd : Int} {st : Store}
    (hpd : ¬ pd ≤ 0) : isErrorResp (runCrawlLoop V R F uo pd st).1 = false := by
  unfold runCrawlLoop
  dsimp only
  cases ho : (crawlLoop V R F uo (List.range pd.toNat) st).1 with
  | some resp =>
    dsimp only
    obtain ⟨i, rfl⟩ := crawlLoop_some_resp _ _ _ ho
    rfl
  | none =>
    dsimp only
    rw [if_neg hpd]
    rfl

/-- C10: when the frontier is empty and the request carries a valid URL
together with a depth value that cannot be converted to an integer, the
request is not rejected and no error is reported — the crawl behaves exactly
as if no depth had been supplied, i.e. with the default depth budget 1. -/
theorem unparsable_depth_defaults_to_one (V : String → Bool)
    (R : String → String → String) (F : String → Except String (List Html))
    (u : String) (j : JVal) (st : Store)
    (hempty : st.links = []) (hv : V u = true) (hj : jsonToInt j = none) :
    recursive_crawl V R F (some ⟨some u, some j⟩) st =
      recursive_crawl V R F (some ⟨some u, none⟩) st ∧
    isErrorResp (recursive_crawl V R F (some ⟨some u, some j⟩) st).1 = false := by
  have hlen : (st.links.length == 0) = true := by simp [hempty]
  have hvneg : ¬((!V u) = true) := by simp [hv]
  have hred : recursive_crawl V R F (some ⟨some u, some j⟩) st =
      runCrawlLoop V R F (some u) 1 (insertLinkDoc st u none 0) := by
    unfold recursive_crawl
    rw [if_pos hlen]
    dsimp only
    rw [if_neg hvneg, hj]
    rfl
  have hred2 : recursive_crawl V R F (some ⟨some u, none⟩) st =
      runCrawlLoop V R F (some u) 1 (insertLinkDoc st u none 0) := by
    unfold recursive_crawl
    rw [if_pos hlen]
    dsimp only
    rw [if_neg hvneg]
  refine ⟨hred.trans hred2.symm, ?_⟩
  rw [hred]
  exact runCrawlLoop_pos_not_error (by omega)

/-- C10 witness at a concrete unconvertible depth value (`"abc"`). -/
theorem unparsable_depth_defaults_to_one_witness :
    recursive_crawl (fun _ => true) (fun _ h => h) (fun _ => Except.error "down")
        (some ⟨some "http://a.test/", some (JVal.str "abc")⟩) emptyStore =
      recursive_crawl (fun _ => true) (fun _ h => h) (fun _ => Except.error "down")
        (some ⟨some "http://a.test/", none⟩) emptyStore ∧
    isErrorResp (recursive_crawl (fun _ => true) (fun _ h => h) (fun _ => Except.error "down")
        (some ⟨some "http://a.test/", some (JVal.str "abc")⟩) emptyStore).1 = false :=
  unparsable_depth_defaults_to_one (fun _ => true) (fun _ h => h) (fun _ => Except.error "down")
    "http://a.test/" (JVal.str "abc") emptyStore rfl rfl (by decide)

/-! ## Bulk content processing (`process_all_links` / `scrape_single_link`) -/

/-- The per-link return value of `scrape_single_link`. -/
inductive ScrapeOutcome where
  | success (link : String) (content_length : Nat) (title : String) (content_id : Nat)
  | failure (link : String) (error : String)
deriving DecidableEq

/-- `scrape_single_link`: fetch the task's URL; on success extract the text
(wiki-aware), insert a `ScrapedDocument` and mark the task processed; on a
transport failure mark the task processed with the error recorded and insert
nothing. -/
def scrape_single_link (F : String → Except String (List Html)) (st : Store)
    (t : TaskDoc) : ScrapeOutcome × Store :=
  let isWiki := isWikiUrl t.link
  match F t.link with
  | .error e =>
    let msg := "Request error: " ++ e
    let newTasks := updateFirst (fun x => x.id == t.id)
      (fun x => { x with is_processed := true, error := some msg }) st.tasks
    (.failure t.link msg, { st with tasks := newTasks })
  | .ok doc =>
    let title := titleTextOf doc
    let textv := scrapeText isWiki doc
    let st1 := insertContentDoc st textv t.link t.id t.source_url t.depth title
    let newTasks := updateFirst (fun x => x.id == t.id)
      (fun x => { x with is_processed := true }) st1.tasks
    (.success t.link textv.length title st.nextId, { st1 with tasks := newTasks })

/-- A per-item line of the bulk response's `details` list. -/
structure ProcessDetail where
  link : String
  ok : Bool
  error : Option String
deriving DecidableEq

/-- The `results` object of the bulk response. -/
structure ProcessResults where
  total_unprocessed : Nat
  processed : Nat
  success : Nat
  failed : Nat
  details : List ProcessDetail
deriving DecidableEq

/-- The bulk response: the early `complete`/`No unprocessed links found`
answer carries no results object (and hence no processed count); the normal
`complete` answer carries the tallies. -/
inductive ProcessResp where
  | empty
  | done (results : ProcessResults)
deriving DecidableEq

/-- The processed count reported by a response, when it reports one. -/
def respProcessedCount : ProcessResp → Option Nat
  | .empty => none
  | .done r => some r.processed

/-- Both bulk responses carry `status: complete`. -/
def respStatus : ProcessResp → String
  | .empty => "complete"
  | .done _ => "complete"

/-- The pending snapshot: `find({'is_processed': False})`. -/
def pendingTasks (st : Store) : List TaskDoc :=
  st.tasks.filter fun t => t.is_processed == false

/-- One iteration of the bulk loop: scrape, then update the tallies. -/
def processStep (F : String → Except String (List Html)) :
    ProcessResults × Store → TaskDoc → ProcessResults × Store := fun acc t =>
  let r := scrape_single_link F acc.2 t
  match r.1 with
  | .success l _ _ _ =>
    ({ acc.1 with
        success := acc.1.success + 1
        processed := acc.1.processed + 1
        details := acc.1.details ++ [⟨l, true, none⟩] }, r.2)
  | .failure l e =>
    ({ acc.1 with
        failed := acc.1.failed + 1
        processed := acc.1.processed + 1
        details := acc.1.details ++ [⟨l, false, some e⟩] }, r.2)

/-- `process_all_links`: answer `complete` without any fetch when nothing is
pending, otherwise drain the snapshot of pending tasks one by one. -/
def process_all_links (F : String → Except String (List Html)) (st : Store) :
    ProcessResp × Store :=
  let unprocessed_count := (pendingTasks st).length
  if unprocessed_count == 0 then (.empty, st)
  else
    let r := (pendingTasks st).foldl (processStep F) (⟨unprocessed_count, 0, 0, 0, []⟩, st)
    (.done r.1, r.2)

/-- The store evolution of the bulk loop, ignoring the tallies. -/
def runTasks (F : String → Except String (List Html)) (ts : List TaskDoc)
    (st : Store) : Store :=
  ts.foldl (fun s t => (scrape_single_link F s t).2) st

theorem processStep_store (F : String → Except String (List Html))
    (acc : ProcessResults × Store) (t : TaskDoc) :
    (processStep F acc t).2 = (scrape_single_link F acc.2 t).2 := by
  unfold processStep
  dsimp only
  cases h : (scrape_single_link F acc.2 t).1 with
  | success l n ttl cid => rfl
  | failure l e => rfl

theorem foldl_processStep_store (F : String → Except String (List Html)) :
    ∀ (ts : List TaskDoc) (acc : ProcessResults × Store),
      (ts.foldl (processStep F) acc).2 = runTasks F ts acc.2 := by
  intro ts
  induction ts with
  | nil => intro acc; rfl
  | cons t ts2 ih =>
    intro acc
    show ((ts2.foldl (processStep F) (processStep F acc t))).2 = _
    rw [ih (processStep F acc t), processStep_store]
    rfl

theorem process_all_links_store (F : String → Except String (List Html)) (st : Store)
    (hne : pendingTasks st ≠ []) :
    (process_all_links F st).2 = runTasks F (pendingTasks st) st := by
  unfold process_all_links
  dsimp only
  have hlen : ¬(((pendingTasks st).length == 0) = true) := by
    simpa using fun h => hne (List.length_eq_zero.mp h)
  rw [if_neg hlen]
  exact foldl_processStep_store F (pendingTasks st) _

/-! ### Claim C8: empty pending set -/

/-- C8 counterexample: on an empty pending set the source answers the early
`{'status': 'complete', 'message': ...}` response, which carries *no*
processed count at all — not a count of 0 as the claim states. -/
theorem empty_pending_counterexample :
    pendingTasks emptyStore = [] ∧
      respStatus (process_all_links (fun _ => Except.error "") emptyStore).1 = "complete" ∧
      respProcessedCount (process_all_links (fun _ => Except.error "") emptyStore).1 ≠
        some 0 := by
  refine ⟨rfl, rfl, by decide⟩

/-- C8 (amended): when no `ContentTask` is pending at invocation start,
`process_all_links` performs no fetch (its result does not depend on the
transport oracle), leaves the store untouched, and returns the early
`complete` response — which carries a message but no processed count. -/
theorem process_empty_pending (F F2 : String → Except String (List Html)) (st : Store)
    (h : pendingTasks st = []) :
    process_all_links F st = (ProcessResp.empty, st) ∧
      process_all_links F2 st = process_all_links F st := by
  have hlen : (((pendingTasks st).length == 0) = true) := by simp [h]
  have h1 : process_all_links F st = (ProcessResp.empty, st) := by
    unfold process_all_links
    dsimp only
    rw [if_pos hlen]
  have h2 : process_all_links F2 st = (ProcessResp.empty, st) := by
    unfold process_all_links
    dsimp only
    rw [if_pos hlen]
  exact ⟨h1, h2.trans h1.symm⟩

/-- C8 amended-claim witness on the concrete empty store. -/
theorem process_empty_pending_witness :
    process_all_links (fun _ => Except.error "a") emptyStore = (ProcessResp.empty, emptyStore) ∧
      process_all_links (fun _ => Except.ok []) emptyStore =
        process_all_links (fun _ => Except.error "a") emptyStore :=
  process_empty_pending (fun _ => Except.error "a") (fun _ => Except.ok []) emptyStore rfl

/-! ### Claim C4: per-item failure isolation -/

/-- `find_one({'_id': i})` on the task collection. -/
def taskById (st : Store) (i : Nat) : Option TaskDoc :=
  st.tasks.find? fun t => t.id == i

/-- The scraped documents recorded for the task with backing id `i`. -/
def contentFor (st : Store) (i : Nat) : List ContentDoc :=
  st.content.filter fun d => d.link_id == i

theorem find?_updateFirst_other {f : TaskDoc → TaskDoc} (hf : ∀ a, (f a).id = a.id)
    {i j : Nat} (hij : i ≠ j) :
    ∀ l : List TaskDoc, (updateFirst (fun x => x.id == j) f l).find? (fun x => x.id == i) =
      l.find? (fun x => x.id == i) := by
  intro l
  induction l with
  | nil => rfl
  | cons x xs ih =>
    simp only [updateFirst]
    by_cases hx : (x.id == j) = true
    · rw [if_pos hx]
      have hxj : x.id = j := beq_iff_eq.mp hx
      have h1 : ((f x).id == i) = false := by
        rw [hf x, hxj]
        exact beq_eq_false_iff_ne.mpr fun he => hij he.symm
      have h2 : (x.id == i) = false := by
        rw [hxj]
        exact beq_eq_false_iff_ne.mpr fun he => hij he.symm
      simp [List.find?_cons, h1, h2]
    · rw [if_neg hx]
      by_cases hxi : (x.id == i) = true
      · simp [List.find?_cons, hxi]
      · have hxi2 : (x.id == i) = false := by simpa using hxi
        simp [List.find?_cons, hxi2, ih]

theorem find?_updateFirst_self {f : TaskDoc → TaskDoc} (hf : ∀ a, (f a).id = a.id) {j : Nat} :
    ∀ l : List TaskDoc, (updateFirst (fun x => x.id == j) f l).find? (fun x => x.id == j) =
      (l.find? (fun x => x.id == j)).map f := by
  intro l
  induction l with
  | nil => rfl
  | cons x xs ih =>
    simp only [updateFirst]
    by_cases hx : (x.id == j) = true
    · rw [if_pos hx]
      have h1 : ((f x).id == j) = true := by rw [hf x]; exact hx
      simp [List.find?_cons, h1, hx]
    · rw [if_neg hx]
      have hx2 : (x.id == j) = false := by simpa using hx
      simp [List.find?_cons, hx2, ih]

theorem find?_of_nodup {l : List TaskDoc} (hnd : (l.map fun x => x.id).Nodup) {t : TaskDoc}
    (ht : t ∈ l) : l.find? (fun x => x.id == t.id) = some t := by
  induction l with
  | nil => simp at ht
  | cons x xs ih =>
    simp only [List.map_cons, List.nodup_cons] at hnd
    rcases List.mem_cons.mp ht with rfl | ht2
    · simp [List.find?_cons]
    · have hxt : (x.id == t.id) = false := by
        refine beq_eq_false_iff_ne.mpr fun he => ?_
        exact hnd.1 (he ▸ List.mem_map.mpr ⟨t, ht2, rfl⟩)
      simp [List.find?_cons, hxt, ih hnd.2 ht2]

theorem scrape_other_id {F : String → Except String (List Html)} {st : Store} {t : TaskDoc}
    {i : Nat} (hne : t.id ≠ i) :
    taskById (scrape_single_link F st t).2 i = taskById st i ∧
      contentFor (scrape_single_link F st t).2 i = contentFor st i := by
  unfold scrape_single_link
  dsimp only
  cases hF : F t.link with
  | error e =>
    dsimp only
    exact ⟨find?_updateFirst_other (f := fun x => { x with is_processed := true, error := some ("Request error: " ++ e) }) (fun a => rfl) (fun he => hne he.symm) st.tasks, rfl⟩
  | ok doc =>
    dsimp only
    constructor
    · exact find?_updateFirst_other (f := fun x => { x with is_processed := true })
        (fun a => rfl) (fun he => hne he.symm) st.tasks
    · show (st.content ++ [(⟨st.nextId, scrapeText (isWikiUrl t.link) doc, t.link, t.id, t.source_url, t.depth, titleTextOf doc⟩ : ContentDoc)]).filter (fun d => d.link_id == i) = contentFor st i
      rw [List.filter_append]
      have hcd : ((⟨st.nextId, scrapeText (isWikiUrl t.link) doc, t.link, t.id, t.source_url, t.depth, titleTextOf doc⟩ : ContentDoc).link_id == i) = false :=
        beq_eq_false_iff_ne.mpr hne
      simp [List.filter, hcd, contentFor]

theorem scrape_self_error {F : String → Except String (List Html)} {st : Store} {t : TaskDoc}
    {e : String} (hfound : taskById st t.id = some t) (hF : F t.link = Except.error e) :
    taskById (scrape_single_link F st t).2 t.id =
      some { t with is_processed := true, error := some ("Request error: " ++ e) } ∧
      contentFor (scrape_single_link F st t).2 t.id = contentFor st t.id := by
  unfold scrape_single_link
  rw [hF]
  dsimp only
  constructor
  · show (updateFirst (fun x => x.id == t.id) (fun x => { x with is_processed := true, error := some ("Request error: " ++ e) }) st.tasks).find? (fun x => x.id == t.id) = _
    rw [find?_updateFirst_self (f := fun x => { x with is_processed := true, error := some ("Request error: " ++ e) }) (fun a => rfl) st.tasks]
    rw [show st.tasks.find? (fun x => x.id == t.id) = some t from hfound]
    rfl
  · rfl

theorem scrape_self_ok {F : String → Except String (List Html)} {st : Store} {t : TaskDoc}
    {doc : List Html} (hfound : taskById st t.id = some t) (hF : F t.link = Except.ok doc) :
    taskById (scrape_single_link F st t).2 t.id = some { t with is_processed := true } ∧
      contentFor (scrape_single_link F st t).2 t.id = contentFor st t.id ++
        [(⟨st.nextId, scrapeText (isWikiUrl t.link) doc, t.link, t.id, t.source_url, t.depth, titleTextOf doc⟩ : ContentDoc)] := by
  unfold scrape_single_link
  rw [hF]
  dsimp only
  constructor
  · show (updateFirst (fun x => x.id == t.id)
        (fun x => { x with is_processed := true }) st.tasks).find? (fun x => x.id == t.id) = _
    rw [find?_updateFirst_self (f := fun x => { x with is_processed := true })
      (fun a => rfl) st.tasks]
    rw [show st.tasks.find? (fun x => x.id == t.id) = some t from hfound]
    rfl
  · show (st.content ++ [(⟨st.nextId, scrapeText (isWikiUrl t.link) doc, t.link, t.id, t.source_url, t.depth, titleTextOf doc⟩ : ContentDoc)]).filter (fun d => d.link_id == t.id) = _
    rw [List.filter_append]
    have hcd : ((⟨st.nextId, scrapeText (isWikiUrl t.link) doc, t.link, t.id, t.source_url, t.depth, titleTextOf doc⟩ : ContentDoc).link_id == t.id) = true :=
      beq_self_eq_true _
    simp [List.filter, hcd, contentFor]

theorem scrape_self_processed {F : String → Except String (List Html)} {st : Store}
    {t : TaskDoc} {x : TaskDoc} (hfound : taskById st t.id = some x) :
    ∃ y, taskById (scrape_single_link F st t).2 t.id = some y ∧ y.is_processed = true := by
  unfold scrape_single_link
  dsimp only
  cases hF : F t.link with
  | error e =>
    dsimp only
    refine ⟨{ x with is_processed := true, error := some ("Request error: " ++ e) }, ?_, rfl⟩
    show (updateFirst (fun z => z.id == t.id) (fun z => { z with is_processed := true, error := some ("Request error: " ++ e) }) st.tasks).find? (fun z => z.id == t.id) = _
    rw [find?_updateFirst_self (f := fun z => { z with is_processed := true, error := some ("Request error: " ++ e) }) (fun a => rfl) st.tasks]
    rw [show st.tasks.find? (fun z => z.id == t.id) = some x from hfound]
    rfl
  | ok doc =>
    dsimp only
    refine ⟨{ x with is_processed := true }, ?_, rfl⟩
    show (updateFirst (fun z => z.id == t.id)
        (fun z => { z with is_processed := true }) st.tasks).find? (fun z => z.id == t.id) = _
    rw [find?_updateFirst_self (f := fun z => { z with is_processed := true })
      (fun a => rfl) st.tasks]
    rw [show st.tasks.find? (fun z => z.id == t.id) = some x from hfound]
    rfl

theorem scrape_keeps_processed {F : String → Except String (List Html)} {st : Store}
    {t : TaskDoc} {i : Nat} {x : TaskDoc} (h : taskById st i = some x)
    (hx : x.is_processed = true) :
    ∃ y, taskById (scrape_single_link F st t).2 i = some y ∧ y.is_processed = true := by
  by_cases hti : t.id = i
  · subst hti
    exact scrape_self_processed h
  · have hoth : taskById (scrape_single_link F st t).2 i = taskById st i ∧
        contentFor (scrape_single_link F st t).2 i = contentFor st i :=
      scrape_other_id hti
    exact ⟨x, hoth.1.trans h, hx⟩

theorem exists_taskById_scrape {F : String → Except String (List Html)} {st : Store}
    {t : TaskDoc} {i : Nat} (h : ∃ x, taskById st i = some x) :
    ∃ x, taskById (scrape_single_link F st t).2 i = some x := by
  obtain ⟨x, hx⟩ := h
  by_cases hti : t.id = i
  · subst hti
    obtain ⟨y, hy, _⟩ := scrape_self_processed (F := F) hx
    exact ⟨y, hy⟩
  · have hoth : taskById (scrape_single_link F st t).2 i = taskById st i ∧
        contentFor (scrape_single_link F st t).2 i = contentFor st i :=
      scrape_other_id hti
    exact ⟨x, hoth.1.trans hx⟩

theorem runTasks_untouched {F : String → Except String (List Html)} :
    ∀ (ts : List TaskDoc) (st : Store) (i : Nat), (∀ w ∈ ts, w.id ≠ i) →
      taskById (runTasks F ts st) i = taskById st i ∧
        contentFor (runTasks F ts st) i = contentFor st i := by
  intro ts
  induction ts with
  | nil => exact fun st i _ => ⟨rfl, rfl⟩
  | cons w ts2 ih =>
    intro st i hdis
    have hstep : taskById (scrape_single_link F st w).2 i = taskById st i ∧
        contentFor (scrape_single_link F st w).2 i = contentFor st i :=
      scrape_other_id (hdis w (List.mem_cons_self _ _))
    have hrest := ih ((scrape_single_link F st w).2) i
      fun w2 hw2 => hdis w2 (List.mem_cons_of_mem _ hw2)
    exact ⟨hrest.1.trans hstep.1, hrest.2.trans hstep.2⟩

theorem runTasks_keeps_processed {F : String → Except String (List Html)} :
    ∀ (ts : List TaskDoc) (st : Store) (i : Nat) (x : TaskDoc),
      taskById st i = some x → x.is_processed = true →
      ∃ y, taskById (runTasks F ts st) i = some y ∧ y.is_processed = true := by
  intro ts
  induction ts with
  | nil => exact fun st i x h hx => ⟨x, h, hx⟩
  | cons w ts2 ih =>
    intro st i x h hx
    obtain ⟨y, hy, hy2⟩ := scrape_keeps_processed (F := F) (t := w) h hx
    exact ih _ i y hy hy2

theorem runTasks_all_processed {F : String → Except String (List Html)} :
    ∀ (ts : List TaskDoc) (st : Store),
      (∀ w ∈ ts, ∃ x, taskById st w.id = some x) →
      ∀ w ∈ ts, ∃ y, taskById (runTasks F ts st) w.id = some y ∧ y.is_processed = true := by
  intro ts
  induction ts with
  | nil => intro st _ w hw; simp at hw
  | cons t ts2 ih =>
    intro st hex w hw
    rcases List.mem_cons.mp hw with rfl | hw2
    · obtain ⟨x, hx⟩ := hex w (List.mem_cons_self _ _)
      obtain ⟨y, hy, hy2⟩ := scrape_self_processed (F := F) hx
      exact runTasks_keeps_processed ts2 _ w.id y hy hy2
    · refine ih _ ?_ w hw2
      intro w2 hw2b
      exact exists_taskById_scrape (hex w2 (List.mem_cons_of_mem _ hw2b))

/-- C4: per-item failure isolation of bulk processing.  For every task `t`
pending at invocation start (with well-formed distinct ids): every pending
task ends up marked processed (failures never block the rest); if the fetch of
`t` fails, exactly `t`'s record is marked `processed` with the non-empty
transport error recorded and no `ScrapedDocument` is added for it; if the
fetch succeeds, a `ScrapedDocument` with the extracted text is persisted for
`t` and `t` is marked `processed` with its error field untouched. -/
theorem process_failure_isolation (F : String → Except String (List Html)) (st : Store)
    (t : TaskDoc) (hnd : (st.tasks.map fun x => x.id).Nodup) (ht : t ∈ pendingTasks st) :
    (∀ w ∈ pendingTasks st, ∃ y, taskById (process_all_links F st).2 w.id = some y ∧
        y.is_processed = true) ∧
    (∀ e, F t.link = Except.error e →
      taskById (process_all_links F st).2 t.id =
        some { t with is_processed := true, error := some ("Request error: " ++ e) } ∧
      ("Request error: " ++ e) ≠ "" ∧
      contentFor (process_all_links F st).2 t.id = contentFor st t.id) ∧
    (∀ doc, F t.link = Except.ok doc →
      taskById (process_all_links F st).2 t.id = some { t with is_processed := true } ∧
      (t.error = none → ({ t with is_processed := true } : TaskDoc).error = none) ∧
      ∃ cd, contentFor (process_all_links F st).2 t.id = contentFor st t.id ++ [cd] ∧
        cd.scrapped_content = scrapeText (isWikiUrl t.link) doc ∧
        cd.content_link = t.link ∧ cd.link_id = t.id ∧ cd.source_url = t.source_url ∧
        cd.depth = t.depth ∧ cd.title = titleTextOf doc) := by
  have hne : pendingTasks st ≠ [] := by
    intro h
    rw [h] at ht
    simp at ht
  have hstore : (process_all_links F st).2 = runTasks F (pendingTasks st) st :=
    process_all_links_store F st hne
  have hsub : List.Sublist ((pendingTasks st).map fun x => x.id)
      (st.tasks.map fun x => x.id) :=
    (List.filter_sublist _).map _
  have hndp : ((pendingTasks st).map fun x => x.id).Nodup := hnd.sublist hsub
  have htt : t ∈ st.tasks := (List.mem_filter.mp ht).1
  have hfound : taskById st t.id = some t := find?_of_nodup hnd htt
  obtain ⟨l1, l2, hsplit⟩ := List.append_of_mem ht
  have hnd2 := hndp
  rw [hsplit, List.map_append, List.map_cons] at hnd2
  have hdisj := List.nodup_append.mp hnd2
  have hl2id : t.id ∉ l2.map (fun x => x.id) := (List.nodup_cons.mp hdisj.2.1).1
  have hl1id : t.id ∉ l1.map (fun x => x.id) := fun hmem =>
    hdisj.2.2 hmem (List.mem_cons_self _ _)
  have hl1 : ∀ w ∈ l1, w.id ≠ t.id := fun w hw he =>
    hl1id (he ▸ List.mem_map.mpr ⟨w, hw, rfl⟩)
  have hl2 : ∀ w ∈ l2, w.id ≠ t.id := fun w hw he =>
    hl2id (he ▸ List.mem_map.mpr ⟨w, hw, rfl⟩)
  have hrt : runTasks F (pendingTasks st) st =
      runTasks F l2 (scrape_single_link F (runTasks F l1 st) t).2 := by
    rw [hsplit]
    simp [runTasks, List.foldl_append]
  have hu1 := runTasks_untouched (F := F) l1 st t.id hl1
  have hfound1 : taskById (runTasks F l1 st) t.id = some t := hu1.1.trans hfound
  have hcont1 : contentFor (runTasks F l1 st) t.id = contentFor st t.id := hu1.2
  refine ⟨?_, ?_, ?_⟩
  · intro w hw
    rw [hstore]
    refine runTasks_all_processed (pendingTasks st) st ?_ w hw
    intro w2 hw2
    have hw2t : w2 ∈ st.tasks := (List.mem_filter.mp hw2).1
    have hsome : (st.tasks.find? (fun z => z.id == w2.id)).isSome :=
      List.find?_isSome.mpr ⟨w2, hw2t, beq_self_eq_true _⟩
    exact Option.isSome_iff_exists.mp hsome
  · intro e hFe
    obtain ⟨hfin, hcfin⟩ := scrape_self_error hfound1 hFe
    have hu2 := runTasks_untouched (F := F) l2
      ((scrape_single_link F (runTasks F l1 st) t).2) t.id hl2
    rw [hstore, hrt]
    refine ⟨hu2.1.trans hfin, ?_, (hu2.2.trans hcfin).trans hcont1⟩
    intro hcontra
    have hlen := congrArg String.length hcontra
    rw [String.length_append] at hlen
    have h15 : ("Request error: " : String).length = 15 := rfl
    rw [h15] at hlen
    simp at hlen
  · intro doc hFok
    obtain ⟨hfin, hcfin⟩ := scrape_self_ok hfound1 hFok
    have hu2 := runTasks_untouched (F := F) l2
      ((scrape_single_link F (runTasks F l1 st) t).2) t.id hl2
    rw [hstore, hrt]
    refine ⟨hu2.1.trans hfin, fun h => h, ?_⟩
    refine ⟨⟨(runTasks F l1 st).nextId, scrapeText (isWikiUrl t.link) doc, t.link, t.id,
      t.source_url, t.depth, titleTextOf doc⟩, ?_, rfl, rfl, rfl, rfl, rfl, rfl⟩
    rw [hu2.2, hcfin, hcont1]

/-- The store for the C4 witness: two pending tasks. -/
def c4Store : Store :=
  ⟨[], [⟨0, "http://bad.test/x", false, "seed_url", true, 0, none⟩,
        ⟨1, "http://good.test/y", false, "http://bad.test/x", true, 1, none⟩], [], [], 2⟩

/-- The fetch oracle for the C4 witness: the first task's URL fails, the
second succeeds. -/
def c4Fetch : String → Except String (List Html) := fun u =>
  if u == "http://good.test/y" then
    Except.ok [Html.elem "title" ⟨none, [], none⟩ [Html.text "G"],
      Html.elem "p" ⟨none, [], none⟩ [Html.text "body"]]
  else Except.error "conn refused"

/-- C4 witness at the failing task of `c4Store`. -/
theorem process_failure_isolation_witness :
    (∀ w ∈ pendingTasks c4Store, ∃ y,
        taskById (process_all_links c4Fetch c4Store).2 w.id = some y ∧
        y.is_processed = true) ∧
    (∀ e, c4Fetch (⟨0, "http://bad.test/x", false, "seed_url", true, 0, none⟩ :
        TaskDoc).link = Except.error e →
      taskById (process_all_links c4Fetch c4Store).2
          (⟨0, "http://bad.test/x", false, "seed_url", true, 0, none⟩ : TaskDoc).id =
        some { (⟨0, "http://bad.test/x", false, "seed_url", true, 0, none⟩ : TaskDoc) with
          is_processed := true, error := some ("Request error: " ++ e) } ∧
      ("Request error: " ++ e) ≠ "" ∧
      contentFor (process_all_links c4Fetch c4Store).2
          (⟨0, "http://bad.test/x", false, "seed_url", true, 0, none⟩ : TaskDoc).id =
        contentFor c4Store
          (⟨0, "http://bad.test/x", false, "seed_url", true, 0, none⟩ : TaskDoc).id) ∧
    (∀ doc, c4Fetch (⟨0, "http://bad.test/x", false, "seed_url", true, 0, none⟩ :
        TaskDoc).link = Except.ok doc →
      taskById (process_all_links c4Fetch c4Store).2
          (⟨0, "http://bad.test/x", false, "seed_url", true, 0, none⟩ : TaskDoc).id =
        some { (⟨0, "http://bad.test/x", false, "seed_url", true, 0, none⟩ : TaskDoc) with
          is_processed := true } ∧
      ((⟨0, "http://bad.test/x", false, "seed_url", true, 0, none⟩ : TaskDoc).error = none →
        ({ (⟨0, "http://bad.test/x", false, "seed_url", true, 0, none⟩ : TaskDoc) with
          is_processed := true } : TaskDoc).error = none) ∧
      ∃ cd, contentFor (process_all_links c4Fetch c4Store).2
          (⟨0, "http://bad.test/x", false, "seed_url", true, 0, none⟩ : TaskDoc).id =
        contentFor c4Store
          (⟨0, "http://bad.test/x", false, "seed_url", true, 0, none⟩ : TaskDoc).id ++ [cd] ∧
        cd.scrapped_content = scrapeText (isWikiUrl
          (⟨0, "http://bad.test/x", false, "seed_url", true, 0, none⟩ : TaskDoc).link) doc ∧
        cd.content_link =
          (⟨0, "http://bad.test/x", false, "seed_url", true, 0, none⟩ : TaskDoc).link ∧
        cd.link_id = (⟨0, "http://bad.test/x", false, "seed_url", true, 0, none⟩ :
          TaskDoc).id ∧
        cd.source_url = (⟨0, "http://bad.test/x", false, "seed_url", true, 0, none⟩ :
          TaskDoc).source_url ∧
        cd.depth = (⟨0, "http://bad.test/x", false, "seed_url", true, 0, none⟩ :
          TaskDoc).depth ∧
        cd.title = titleTextOf doc) :=
  process_failure_isolation c4Fetch c4Store
    ⟨0, "http://bad.test/x", false, "seed_url", true, 0, none⟩ (by decide) (by decide)

/-! ## Stats Aggregator (`realtime_stats`) and claim C9 -/

/-- Python's `s.split()`: the maximal whitespace-free runs of the string. -/
def tokensOf : List Char → List (List Char)
  | [] => []
  | c :: cs =>
    if isPySpace c then tokensOf cs
    else (c :: cs.takeWhile fun x => !isPySpace x) ::
      tokensOf (cs.dropWhile fun x => !isPySpace x)
termination_by l => l.length
decreasing_by
  · simp only [List.length_cons]
    omega
  · simp only [List.length_cons]
    have h := List.IsSuffix.length_le
      (List.dropWhile_suffix (l := cs) fun x => !isPySpace x)
    omega

/-- The response of `realtime_stats`. -/
structure StatsData where
  Links : List String
  Total_Number_of_Links : Nat
  Scrapped_Links : Nat
  Pending_Links : Nat
  Total_Words_Scrapped : Nat
deriving DecidableEq

/-- `realtime_stats`: read-only rollup — all frontier links, total and pending
task counts, scraped-document count, and the running total of
`len(doc['scrapped_content'].split())` over all scraped documents. -/
def realtime_stats (st : Store) : StatsData × Store :=
  let all_links := st.links.map fun e => e.link
  let total_number_of_links := st.tasks.length
  let scrapped_links_count := st.content.length
  let pending_links := (st.tasks.filter fun t => t.is_processed == false).length
  let total_words := st.content.foldl
    (fun acc d => acc + (tokensOf d.scrapped_content.data).length) 0
  (⟨all_links, total_number_of_links, scrapped_links_count, pending_links, total_words⟩, st)

theorem foldl_add_count (g : ContentDoc → Nat) :
    ∀ (l : List ContentDoc) (n : Nat),
      l.foldl (fun acc d => acc + g d) n = n + (l.map g).sum := by
  intro l
  induction l with
  | nil => intro n; simp
  | cons d ds ih =>
    intro n
    simp only [List.foldl_cons, List.map_cons, List.sum_cons]
    rw [ih]
    omega

/-- C9: `Total_Words_Scrapped` equals the sum, over all stored scraped
documents, of the number of whitespace-delimited tokens of the document's
content, and the stats operation returns the store unchanged (it only
reads). -/
theorem realtime_stats_word_count (st : Store) :
    (realtime_stats st).1.Total_Words_Scrapped =
      (st.content.map fun d => (tokensOf d.scrapped_content.data).length).sum ∧
    (realtime_stats st).2 = st := by
  constructor
  · show st.content.foldl (fun acc d => acc + (tokensOf d.scrapped_content.data).length) 0 = _
    rw [foldl_add_count]
    omega
  · rfl
